import Mathlib

/-!
Verification of the mal `rust2` interpreter core: reader (tokenizer +
recursive-descent parser), printer, environment chain and evaluator,
embedded shallowly from `src/impls/rust2/{reader,printer,types,env}.rs`
and `src/impls/rust2/step4_if_fn_do.rs`.

Text is modelled as `List Char` (the field of Lean `String`).  Rust's
Unicode character classes (`char::is_alphabetic`, `is_alphanumeric`,
`is_whitespace`) are modelled on their ASCII fragments.  Recursions that
are unbounded in Rust (tokenizer loop, recursive-descent parser, the
evaluator's call-stack recursion) take an explicit fuel argument; the
wrapper functions pass a fuel that is proved (or, for the evaluator,
chosen large enough for the concrete programs considered) to exceed the
recursion depth, so fuel exhaustion is unreachable there.
-/

namespace Mal

/-! ## Character classes (reader.rs tokenizer) -/

/-- ASCII fragment of Rust `char::is_whitespace` (Unicode White_Space),
by codepoint: space, tab, newline, carriage return, vertical tab, form
feed. -/
def isWhitespaceCh (c : Char) : Bool :=
  c.toNat = 32 || c.toNat = 9 || c.toNat = 10 || c.toNat = 13 ||
  c.toNat = 11 || c.toNat = 12

/-- Rust `char::is_digit(10)`, by codepoint: `0`-`9`. -/
def isDigitCh (c : Char) : Bool := 48 ≤ c.toNat && c.toNat ≤ 57

/-- ASCII fragment of Rust `char::is_alphabetic`, by codepoint:
`a`-`z`, `A`-`Z`. -/
def isAlphabeticCh (c : Char) : Bool :=
  (97 ≤ c.toNat && c.toNat ≤ 122) || (65 ≤ c.toNat && c.toNat ≤ 90)

/-- ASCII fragment of Rust `char::is_alphanumeric`. -/
def isAlphanumericCh (c : Char) : Bool := isAlphabeticCh c || isDigitCh c

/-- Membership in the Rust string `"+-*/<>=!?_"` (reader.rs line 199),
by codepoint. -/
def isSymSpecialCh (c : Char) : Bool :=
  c.toNat = 43 || c.toNat = 45 || c.toNat = 42 || c.toNat = 47 ||
  c.toNat = 60 || c.toNat = 62 || c.toNat = 61 || c.toNat = 33 ||
  c.toNat = 63 || c.toNat = 95

/-- Start of a symbol token: `c.is_alphabetic() || "+-*/<>=!?_".contains(c)`. -/
def isSymStartCh (c : Char) : Bool := isAlphabeticCh c || isSymSpecialCh c

/-- Continuation of a symbol token:
`c.is_alphanumeric() || "+-*/<>=!?_-:".contains(c)` (reader.rs line 202). -/
def isSymCh (c : Char) : Bool := isAlphanumericCh c || isSymSpecialCh c || c = ':'

/-- Continuation of a keyword token:
`c.is_alphanumeric() || "+-*/<>=!?_-".contains(c)` (reader.rs line 173). -/
def isKeywordCh (c : Char) : Bool := isAlphanumericCh c || isSymSpecialCh c

/-! ## Tokens (reader.rs `enum Token`) -/

inductive Tok where
  | leftParen | rightParen | leftBracket | rightBracket | leftBrace | rightBrace
  | quoteTok | quasiquoteTok | unquoteTok | spliceUnquote | derefTok | metaTok
  | num (n : Int)
  | sym (s : String)
  | strTok (s : String)
  | kw (s : String)
  deriving DecidableEq, Repr

/-! ## Tokenizer (reader.rs `tokenize` and helpers) -/

/-- Escape resolution inside `read_string` (reader.rs lines 69-75):
`\n`, `\\`, `\"` are recognized, any other escaped char stands for itself. -/
def escResolve (c : Char) : Char :=
  if c = 'n' then '\n' else c

/-- reader.rs `read_string`: consume chars until an unescaped closing quote,
returning the string contents and the remaining input; reaching end of
input (also right after a backslash) fails with "end of input". -/
def readStringChars : List Char → Except String (List Char × List Char)
  | [] => .error "end of input"
  | '\x22' :: rest => .ok ([], rest)
  | '\\' :: [] => .error "end of input"
  | '\\' :: e :: rest2 => (readStringChars rest2).map (fun p => (escResolve e :: p.1, p.2))
  | c :: rest => (readStringChars rest).map (fun p => (c :: p.1, p.2))

/-- reader.rs `skip_comment`: drop chars up to (not including) a newline. -/
def skipComment : List Char → List Char
  | [] => []
  | c :: rest => if c = '\n' then c :: rest else skipComment rest

/-- Numeric value of a run of decimal digit characters. -/
def charsToNat (ds : List Char) : Nat :=
  ds.foldl (fun a c => 10 * a + (c.toNat - 48)) 0

/-- The `i64` range check performed by Rust `str::parse::<i64>` in the
tokenizer's number branch: out-of-range literals fail to parse and are
silently dropped (reader.rs lines 194-196). -/
def inI64 (n : Int) : Bool := -(2 ^ 63) ≤ n && n < 2 ^ 63

/-- Whether the char after the current one is a decimal digit
(`chars.clone().nth(1)`, reader.rs line 182). -/
def digitNext : List Char → Bool
  | d :: _ => isDigitCh d
  | [] => false

/-- reader.rs `tokenize`, fueled: each loop iteration consumes at least one
character, so fuel `length + 1` (the wrapper below) always suffices. -/
def tokenizeF : Nat → List Char → Except String (List Tok)
  | 0, _ => .error "tokenizer fuel exhausted"
  | _, [] => .ok []
  | f + 1, ';' :: cs => tokenizeF f (skipComment cs)
  | f + 1, '\x22' :: cs =>
    match readStringChars cs with
    | .ok (s, rest) => (tokenizeF f rest).map (fun ts => .strTok (String.mk s) :: ts)
    | .error e => .error e
  | f + 1, '(' :: cs => (tokenizeF f cs).map (fun ts => .leftParen :: ts)
  | f + 1, ')' :: cs => (tokenizeF f cs).map (fun ts => .rightParen :: ts)
  | f + 1, '[' :: cs => (tokenizeF f cs).map (fun ts => .leftBracket :: ts)
  | f + 1, ']' :: cs => (tokenizeF f cs).map (fun ts => .rightBracket :: ts)
  | f + 1, '\x7b' :: cs => (tokenizeF f cs).map (fun ts => .leftBrace :: ts)
  | f + 1, '\x7d' :: cs => (tokenizeF f cs).map (fun ts => .rightBrace :: ts)
  | f + 1, '\x27' :: cs => (tokenizeF f cs).map (fun ts => .quoteTok :: ts)
  | f + 1, '\x60' :: cs => (tokenizeF f cs).map (fun ts => .quasiquoteTok :: ts)
  | f + 1, '~' :: '@' :: cs => (tokenizeF f cs).map (fun ts => .spliceUnquote :: ts)
  | f + 1, '~' :: cs => (tokenizeF f cs).map (fun ts => .unquoteTok :: ts)
  | f + 1, '@' :: cs => (tokenizeF f cs).map (fun ts => .derefTok :: ts)
  | f + 1, '^' :: cs => (tokenizeF f cs).map (fun ts => .metaTok :: ts)
  | f + 1, ':' :: cs =>
    (tokenizeF f (cs.dropWhile isKeywordCh)).map
      (fun ts => .kw (String.mk (cs.takeWhile isKeywordCh)) :: ts)
  | f + 1, ',' :: cs => tokenizeF f cs
  | f + 1, c :: cs =>
    -- the remaining source arms are guard arms over character classes
    -- (whitespace, number start, symbol start, skip-unknown); they are
    -- disjoint from the literal arms above, so listing the literal arms
    -- first preserves the source's arm order
    if isWhitespaceCh c then tokenizeF f cs
    else if isDigitCh c || (c = '-' && digitNext cs) then
      -- number branch: collect optional sign and the maximal digit run,
      -- then `parse::<i64>`; on overflow the characters are dropped with
      -- no token emitted.
      let cs1 := if c = '-' then cs else c :: cs
      let digits := cs1.takeWhile isDigitCh
      let rest := cs1.dropWhile isDigitCh
      let v : Int := if c = '-' then -(charsToNat digits : Int) else (charsToNat digits : Int)
      if inI64 v then (tokenizeF f rest).map (fun ts => .num v :: ts)
      else tokenizeF f rest
    else if isSymStartCh c then
      (tokenizeF f ((c :: cs).dropWhile isSymCh)).map
        (fun ts => .sym (String.mk ((c :: cs).takeWhile isSymCh)) :: ts)
    else tokenizeF f cs

/-- reader.rs `tokenize` (the fuel always suffices: every iteration of the
source loop consumes at least one character). -/
def tokenize (cs : List Char) : Except String (List Tok) :=
  tokenizeF (cs.length + 1) cs

/-! ## Data model (types.rs `enum MalType`).
`Str` embeds the source's `String` variant; `Function`'s captured
environment is an index into the store of scopes (see below). -/

inductive MalType where
  | Nil : MalType
  | Bool (b : Bool) : MalType
  | Number (n : Int) : MalType
  | Symbol (s : String) : MalType
  | Str (s : String) : MalType
  | Keyword (s : String) : MalType
  | List (items : List MalType) : MalType
  | Vector (items : List MalType) : MalType
  | Map (pairs : List (MalType × MalType)) : MalType
  | Function (params : List String) (body : MalType) (envId : Nat) (isMacro : Bool) : MalType
  deriving Repr

mutual
/-- types.rs `impl PartialEq for MalType` (lines 25-43): structural
equality with List/Vector cross-kind equality, element-wise Map equality,
and Functions never equal to anything. -/
def malEq : MalType → MalType → Bool
  | .Nil, .Nil => true
  | .Bool a, .Bool b => a == b
  | .Number a, .Number b => a == b
  | .Symbol a, .Symbol b => a == b
  | .Str a, .Str b => a == b
  | .Keyword a, .Keyword b => a == b
  | .List a, .List b => malEqList a b
  | .Vector a, .Vector b => malEqList a b
  | .List a, .Vector b => malEqList a b
  | .Vector a, .List b => malEqList a b
  | .Map a, .Map b => malEqPairs a b
  | _, _ => false

/-- `Vec<MalType>` equality: element-wise, in order. -/
def malEqList : List MalType → List MalType → Bool
  | [], [] => true
  | x :: xs, y :: ys => malEq x y && malEqList xs ys
  | _, _ => false

/-- `Vec<(MalType, MalType)>` equality: pairwise, in order. -/
def malEqPairs : List (MalType × MalType) → List (MalType × MalType) → Bool
  | [], [] => true
  | (k1, v1) :: xs, (k2, v2) :: ys => malEq k1 k2 && malEq v1 v2 && malEqPairs xs ys
  | _, _ => false
end

mutual
/-- Structural size, for strong induction over the nested data model. -/
def msize : MalType → Nat
  | .List items => 1 + msizeList items
  | .Vector items => 1 + msizeList items
  | .Map pairs => 1 + msizePairs pairs
  | _ => 1

def msizeList : List MalType → Nat
  | [] => 0
  | x :: xs => msize x + msizeList xs

def msizePairs : List (MalType × MalType) → Nat
  | [] => 0
  | (k, v) :: xs => msize k + msize v + msizePairs xs
end

/-! ## Printer (printer.rs `pr_str`) -/

/-- One character of printer.rs's readable string escaping
(`replace('\\',"\\\\").replace('\n',"\\n").replace('"',"\\\"")`,
which acts independently on each character). -/
def escChar (c : Char) : List Char :=
  if c = '\\' then ['\\', '\\']
  else if c = '\n' then ['\\', 'n']
  else if c = '\x22' then ['\\', '\x22']
  else [c]

/-- Decimal digits of a natural number, fueled (`fuel > log10 n` suffices;
the wrapper passes `n + 1`). -/
def natDigits : Nat → Nat → List Char
  | 0, _ => []
  | f + 1, n =>
    if n < 10 then [Char.ofNat (48 + n)]
    else natDigits f (n / 10) ++ [Char.ofNat (48 + n % 10)]

/-- Decimal rendering of a natural number (Rust `to_string`). -/
def natToChars (n : Nat) : List Char := natDigits (n + 1) n

/-- Decimal rendering of an `i64` (Rust `to_string`). -/
def intToChars (n : Int) : List Char :=
  if n < 0 then '-' :: natToChars n.natAbs else natToChars n.toNat

mutual
/-- printer.rs `pr_str`: serialize a value; `readable` escapes and quotes
strings.  Output is the character list of the returned Rust `String`. -/
def prStr (readable : Bool) : MalType → List Char
  | .Nil => ['n', 'i', 'l']
  | .Bool b => if b then ['t', 'r', 'u', 'e'] else ['f', 'a', 'l', 's', 'e']
  | .Number n => intToChars n
  | .Symbol s => s.data
  | .Str s =>
    if readable then '\x22' :: (s.data.flatMap escChar) ++ ['\x22'] else s.data
  | .Keyword k => ':' :: k.data
  | .List items => '(' :: prJoin readable items ++ [')']
  | .Vector items => '[' :: prJoin readable items ++ [']']
  | .Map pairs => '\x7b' :: prJoinPairs readable pairs ++ ['\x7d']
  | .Function _ _ _ _ => ['#', '<', 'f', 'u', 'n', 'c', 't', 'i', 'o', 'n', '>']

/-- `items.join(" ")` over printed elements. -/
def prJoin (readable : Bool) : List MalType → List Char
  | [] => []
  | [x] => prStr readable x
  | x :: xs => prStr readable x ++ ' ' :: prJoin readable xs

/-- `pairs` printed as `k v` joined with spaces. -/
def prJoinPairs (readable : Bool) : List (MalType × MalType) → List Char
  | [] => []
  | [(k, v)] => prStr readable k ++ ' ' :: prStr readable v
  | (k, v) :: xs => prStr readable k ++ ' ' :: prStr readable v ++ ' ' :: prJoinPairs readable xs
end

/-! ## Parser (reader.rs `read_form`, `read_list`, `read_vector`,
`read_hash_map`, `read_atom`, `read_str`) -/

/-- reader.rs `read_atom`: atoms from non-delimiter tokens; any other token
reaching it (a stray closing delimiter) is an invalid atom. -/
def readAtom : Tok → Except String MalType
  | .num n => .ok (.Number n)
  | .sym s => .ok (.Symbol s)
  | .strTok s => .ok (.Str s)
  | .kw s => .ok (.Keyword s)
  | _ => .error "Invalid atom"

mutual
/-- reader.rs `read_form`, fueled; returns the form and remaining tokens.
Each call consumes at least one token, so the wrapper's fuel
`2 * length + 2` always suffices. -/
def readFormF : Nat → List Tok → Except String (MalType × List Tok)
  | 0, _ => .error "parser fuel exhausted"
  | f + 1, ts =>
    match ts with
    | [] => .error "end of input"
    | .quoteTok :: rest =>
      (readFormF f rest).map (fun p => (.List [.Symbol "quote", p.1], p.2))
    | .quasiquoteTok :: rest =>
      (readFormF f rest).map (fun p => (.List [.Symbol "quasiquote", p.1], p.2))
    | .unquoteTok :: rest =>
      (readFormF f rest).map (fun p => (.List [.Symbol "unquote", p.1], p.2))
    | .spliceUnquote :: rest =>
      (readFormF f rest).map (fun p => (.List [.Symbol "splice-unquote", p.1], p.2))
    | .derefTok :: rest =>
      (readFormF f rest).map (fun p => (.List [.Symbol "deref", p.1], p.2))
    | .metaTok :: rest =>
      -- reads the meta form first, then the target form, but emits the
      -- target before the meta in the resulting list (reader.rs 322-326)
      match readFormF f rest with
      | .error e => .error e
      | .ok (m, r1) =>
        match readFormF f r1 with
        | .error e => .error e
        | .ok (x, r2) => .ok (.List [.Symbol "with-meta", x, m], r2)
    | .leftParen :: rest => readListF f [] rest
    | .leftBracket :: rest => readVectorF f [] rest
    | .leftBrace :: rest => readMapF f [] rest
    | t :: rest => (readAtom t).map (fun a => (a, rest))

/-- reader.rs `read_list`: accumulate forms until a closing paren. -/
def readListF : Nat → List MalType → List Tok → Except String (MalType × List Tok)
  | 0, _, _ => .error "parser fuel exhausted"
  | f + 1, acc, ts =>
    match ts with
    | .rightParen :: rest => .ok (.List acc, rest)
    | [] => .error "end of input"
    | _ =>
      match readFormF f ts with
      | .error e => .error e
      | .ok (x, r) => readListF f (acc ++ [x]) r

/-- reader.rs `read_vector`. -/
def readVectorF : Nat → List MalType → List Tok → Except String (MalType × List Tok)
  | 0, _, _ => .error "parser fuel exhausted"
  | f + 1, acc, ts =>
    match ts with
    | .rightBracket :: rest => .ok (.Vector acc, rest)
    | [] => .error "end of input"
    | _ =>
      match readFormF f ts with
      | .error e => .error e
      | .ok (x, r) => readVectorF f (acc ++ [x]) r

/-- reader.rs `read_hash_map`: forms consumed in (key, value) pairs. -/
def readMapF : Nat → List (MalType × MalType) → List Tok → Except String (MalType × List Tok)
  | 0, _, _ => .error "parser fuel exhausted"
  | f + 1, acc, ts =>
    match ts with
    | .rightBrace :: rest => .ok (.Map acc, rest)
    | [] => .error "end of input"
    | _ =>
      match readFormF f ts with
      | .error e => .error e
      | .ok (k, r1) =>
        match r1 with
        | [] => .error "end of input"
        | _ =>
          match readFormF f r1 with
          | .error e => .error e
          | .ok (v, r2) => readMapF f (acc ++ [(k, v)]) r2
end

/-- reader.rs `read_str`: tokenize, fail on an empty token stream, then
read a single form, discarding any tokens after it. -/
def read_str (cs : List Char) : Except String MalType :=
  match tokenize cs with
  | .error e => .error e
  | .ok ts =>
    if ts.isEmpty then .error "Empty input"
    else (readFormF (2 * ts.length + 2) ts).map Prod.fst

/-! ## Environments (env.rs `struct Env`).
The source uses `Rc<RefCell<Env>>` shared mutable scopes; the model is an
arena: a store (list) of scope records indexed by handle, each holding its
own bindings and an optional handle of the enclosing scope.  The
`HashMap<String, MalType>` of own bindings is modelled as an association
list with replace-on-insert. -/

structure EnvRec where
  data : List (String × MalType)
  outer : Option Nat
  deriving Repr

abbrev Store := List EnvRec

/-- env.rs `Env::set`: insert/overwrite a binding in this scope only. -/
def envSet (store : Store) (id : Nat) (k : String) (v : MalType) : Store :=
  match store[id]? with
  | some r => store.set id ⟨(k, v) :: r.data.filter (fun p => ¬ p.1 = k), r.outer⟩
  | none => store

/-- env.rs `Env::get`, fueled over the outer chain: look in this scope's
own bindings, else delegate to the outer scope.  Chains built by the
evaluator are acyclic with outer handle < own handle, so the wrapper's
fuel `store.length` always covers the chain. -/
def envGetF (store : Store) : Nat → Nat → String → Option MalType
  | 0, _, _ => none
  | f + 1, id, k =>
    match store[id]? with
    | none => none
    | some r =>
      match r.data.lookup k with
      | some v => some v
      | none =>
        match r.outer with
        | some oid => envGetF store f oid k
        | none => none

/-- env.rs `Env::get` on the scope chain starting at `id`. -/
def envGet (store : Store) (id : Nat) (k : String) : Option MalType :=
  envGetF store store.length id k

/-- `env_new!`: allocate a fresh scope with the given outer scope,
returning the grown store and the new scope's handle. -/
def envNew (store : Store) (outer : Option Nat) : Store × Nat :=
  (store ++ [⟨[], outer⟩], store.length)

/-! ## Evaluator (step4_if_fn_do.rs `eval`, `eval_ast`, `apply_function`,
the `handle_special!` macro, and types.rs `apply_fn!`).
All functions are fueled (first argument); the Rust originals recurse on
an unbounded call stack.  The `DEBUG-EVAL` logging in `eval` and the
stdout writes of `prn`/`println` are observability-only side effects that
do not affect the returned value and are not modelled. -/

/-- step4_if_fn_do.rs `handle_special!(fn*)` parameter scan: parameter
tokens must be symbols; a `&` must be followed by a symbol (both are kept
in the stored parameter-name sequence, consumed at application time). -/
def parseParams : List MalType → Except String (List String)
  | [] => .ok []
  | .Symbol n :: rest =>
    if n = "&" then
      match rest with
      | .Symbol r :: rest2 => (parseParams rest2).map (fun ps => "&" :: r :: ps)
      | _ => .error "& must be followed by a symbol"
    else (parseParams rest).map (fun ps => n :: ps)
  | _ :: _ => .error "fn* parameters must be symbols"

/-- types.rs `apply_fn!` fixed-parameter loop: bind parameters
positionally; parameters beyond the supplied arguments bind to `Nil`. -/
def bindParams (id : Nat) : List String → List MalType → Store → Store
  | [], _, st => st
  | p :: ps, [], st => bindParams id ps [] (envSet st id p .Nil)
  | p :: ps, a :: rest, st => bindParams id ps rest (envSet st id p a)

/-- types.rs `get_value!(number)`: the source error text carries a debug
dump of the offending value, elided here. -/
def getNumber : MalType → Except String Int
  | .Number n => .ok n
  | _ => .error "Expected number"

/-- Two's-complement wraparound of `i64` arithmetic (release-mode Rust;
a debug build would panic on overflow instead). -/
def wrapI64 (n : Int) : Int := (n + 2 ^ 63) % 2 ^ 64 - 2 ^ 63

/-- An arithmetic builtin (`+`, `-`, `*`): exactly 2 operands, both
numbers (`ensure!` then `get_value!(number)` twice, in that order). -/
def arith (op : Int → Int → Int) (name : String) (args : List MalType) (store : Store) :
    Except String (MalType × Store) :=
  if h : args.length = 2 then
    match getNumber (args.get ⟨0, by omega⟩) with
    | .error e => .error e
    | .ok a =>
      match getNumber (args.get ⟨1, by omega⟩) with
      | .error e => .error e
      | .ok b => .ok (.Number (wrapI64 (op a b)), store)
  else .error (name ++ " requires exactly 2 arguments")

/-- The `/` builtin: like the other arithmetic builtins but failing with
"division by zero" when the divisor is 0; `i64` division truncates toward
zero (`Int.div`). -/
def divBuiltin (args : List MalType) (store : Store) : Except String (MalType × Store) :=
  if h : args.length = 2 then
    match getNumber (args.get ⟨0, by omega⟩) with
    | .error e => .error e
    | .ok a =>
      match getNumber (args.get ⟨1, by omega⟩) with
      | .error e => .error e
      | .ok b =>
        if b = 0 then .error "division by zero"
        else .ok (.Number (wrapI64 (Int.div a b)), store)
  else .error "/ requires exactly 2 arguments"

/-- A comparison builtin (`>`, `>=`, `<`, `<=`): exactly 2 number
operands. -/
def cmpNums (cmp : Int → Int → Bool) (args : List MalType) (store : Store) :
    Except String (MalType × Store) :=
  if h : args.length = 2 then
    match getNumber (args.get ⟨0, by omega⟩) with
    | .error e => .error e
    | .ok a =>
      match getNumber (args.get ⟨1, by omega⟩) with
      | .error e => .error e
      | .ok b => .ok (.Bool (cmp a b), store)
  else .error "comparison requires exactly 2 arguments"

/-- `" "`-joined concatenation used by `pr-str`/`prn`/`println`. -/
def joinSpace : List (List Char) → List Char
  | [] => []
  | [x] => x
  | x :: xs => x ++ ' ' :: joinSpace xs

/-- Plain concatenation used by `str`. -/
def concatAll : List (List Char) → List Char
  | [] => []
  | x :: xs => x ++ concatAll xs

mutual
/-- step4_if_fn_do.rs `eval`: special-form dispatch on a non-empty list
whose head is a special-form symbol, otherwise evaluate all elements and
apply; non-list forms go to `eval_ast`. -/
def eval : Nat → MalType → Nat → Store → Except String (MalType × Store)
  | 0, _, _, _ => .error "recursion depth exhausted"
  | f + 1, ast, envId, store =>
    match ast with
    | .List (first :: args) =>
      match first with
      | .Symbol s =>
        if s = "def!" then evalDef f args envId store
        else if s = "let*" then evalLet f args envId store
        else if s = "do" then
          if args.isEmpty then .error "do requires at least one argument"
          else evalDo f args envId store
        else if s = "if" then evalIf f args envId store
        else if s = "fn*" then evalFn f args envId store
        else
          -- generic application: evaluate every element (head included)
          -- left to right, then apply
          match eval f first envId store with
          | .error e => .error e
          | .ok (fv, st1) =>
            match evalItems f args envId st1 with
            | .error e => .error e
            | .ok (vals, st2) => applyFunction f fv vals envId st2
      | _ =>
        match eval f first envId store with
        | .error e => .error e
        | .ok (fv, st1) =>
          match evalItems f args envId st1 with
          | .error e => .error e
          | .ok (vals, st2) => applyFunction f fv vals envId st2
    | _ => evalAst f ast envId store
termination_by structural f => f

/-- step4_if_fn_do.rs `eval_ast`: symbol lookup (the source error text
carries the symbol name); containers evaluate their elements (Map keys
pass through unevaluated); everything else self-evaluates. -/
def evalAst : Nat → MalType → Nat → Store → Except String (MalType × Store)
  | 0, _, _, _ => .error "recursion depth exhausted"
  | f + 1, ast, envId, store =>
    match ast with
    | .Symbol s =>
      match envGet store envId s with
      | some v => .ok (v, store)
      | none => .error "Symbol not found"
    | .List items =>
      match evalItems f items envId store with
      | .error e => .error e
      | .ok (vs, st) => .ok (.List vs, st)
    | .Vector items =>
      match evalItems f items envId store with
      | .error e => .error e
      | .ok (vs, st) => .ok (.Vector vs, st)
    | .Map pairs =>
      match evalPairs f pairs envId store with
      | .error e => .error e
      | .ok (ps, st) => .ok (.Map ps, st)
    | _ => .ok (ast, store)
termination_by structural f => f

/-- Left-to-right evaluation of a list of forms, short-circuiting on the
first failure. -/
def evalItems : Nat → List MalType → Nat → Store → Except String (List MalType × Store)
  | 0, _, _, _ => .error "recursion depth exhausted"
  | f + 1, items, envId, store =>
    match items with
    | [] => .ok ([], store)
    | x :: xs =>
      match eval f x envId store with
      | .error e => .error e
      | .ok (v, st1) =>
        match evalItems f xs envId st1 with
        | .error e => .error e
        | .ok (vs, st2) => .ok (v :: vs, st2)
termination_by structural f => f

/-- Map evaluation: keys pass through unevaluated, values are evaluated. -/
def evalPairs : Nat → List (MalType × MalType) → Nat → Store →
    Except String (List (MalType × MalType) × Store)
  | 0, _, _, _ => .error "recursion depth exhausted"
  | f + 1, pairs, envId, store =>
    match pairs with
    | [] => .ok ([], store)
    | (k, x) :: xs =>
      match eval f x envId store with
      | .error e => .error e
      | .ok (v, st1) =>
        match evalPairs f xs envId st1 with
        | .error e => .error e
        | .ok (vs, st2) => .ok ((k, v) :: vs, st2)
termination_by structural f => f

/-- `handle_special!(def!)`: exactly 2 operands, the first a symbol;
evaluates the second and binds the result in the current scope. -/
def evalDef : Nat → List MalType → Nat → Store → Except String (MalType × Store)
  | 0, _, _, _ => .error "recursion depth exhausted"
  | f + 1, args, envId, store =>
    match args with
    | [k, vexpr] =>
      match k with
      | .Symbol key =>
        match eval f vexpr envId store with
        | .error e => .error e
        | .ok (v, st1) => .ok (v, envSet st1 envId key v)
      | _ => .error "def! first argument must be a symbol"
    | _ => .error "def! requires exactly 2 arguments"
termination_by structural f => f

/-- `handle_special!(let*)`: exactly 2 operands; one new child scope;
bindings installed pairwise in order, each initializer evaluated in the
partially populated new scope; the body evaluated in the new scope. -/
def evalLet : Nat → List MalType → Nat → Store → Except String (MalType × Store)
  | 0, _, _, _ => .error "recursion depth exhausted"
  | f + 1, args, envId, store =>
    match args with
    | [bindsExpr, body] =>
      let (st1, newId) := envNew store (some envId)
      match bindsExpr with
      | .List binds =>
        if binds.length % 2 ≠ 0 then .error "let* requires an even number of binding forms"
        else
          match letBind f binds newId st1 with
          | .error e => .error e
          | .ok st2 => eval f body newId st2
      | .Vector binds =>
        if binds.length % 2 ≠ 0 then .error "let* requires an even number of binding forms"
        else
          match letBind f binds newId st1 with
          | .error e => .error e
          | .ok st2 => eval f body newId st2
      | _ => .error "let* first argument must be a list or vector"
    | _ => .error "let* requires exactly 2 arguments"
termination_by structural f => f

/-- The `let*` binding loop over `chunks(2)` (even length is checked
before the loop, so a singleton tail is unreachable). -/
def letBind : Nat → List MalType → Nat → Store → Except String Store
  | 0, _, _, _ => .error "recursion depth exhausted"
  | _ + 1, [], _, store => .ok store
  | f + 1, kexpr :: vexpr :: rest, id, store =>
    match kexpr with
    | .Symbol key =>
      match eval f vexpr id store with
      | .error e => .error e
      | .ok (v, st1) => letBind f rest id (envSet st1 id key v)
    | _ => .error "let* binding key must be a symbol"
  | _ + 1, [_], _, _ => .error "let* requires an even number of binding forms"
termination_by structural f => f

/-- `handle_special!(do)`: evaluate operands in order, return the last
value; a failure stops the sequence immediately. -/
def evalDo : Nat → List MalType → Nat → Store → Except String (MalType × Store)
  | 0, _, _, _ => .error "recursion depth exhausted"
  | _ + 1, [], _, store => .ok (.Nil, store)
  | f + 1, [e], envId, store => eval f e envId store
  | f + 1, e :: rest, envId, store =>
    match eval f e envId store with
    | .error err => .error err
    | .ok (_, st1) => evalDo f rest envId st1
termination_by structural f => f

/-- `handle_special!(if)`: 2 or 3 operands; `Bool false` and `Nil` are the
only falsy values. -/
def evalIf : Nat → List MalType → Nat → Store → Except String (MalType × Store)
  | 0, _, _, _ => .error "recursion depth exhausted"
  | f + 1, args, envId, store =>
    match args with
    | [c, t] =>
      match eval f c envId store with
      | .error e => .error e
      | .ok (.Bool false, st1) => .ok (.Nil, st1)
      | .ok (.Nil, st1) => .ok (.Nil, st1)
      | .ok (_, st1) => eval f t envId st1
    | [c, t, e] =>
      match eval f c envId store with
      | .error err => .error err
      | .ok (.Bool false, st1) => eval f e envId st1
      | .ok (.Nil, st1) => eval f e envId st1
      | .ok (_, st1) => eval f t envId st1
    | _ => .error "if requires 2 or 3 arguments"
termination_by structural f => f

/-- `handle_special!(fn*)`: exactly 2 operands; parameters from a list or
vector of symbols; produces a closure capturing the current scope. -/
def evalFn : Nat → List MalType → Nat → Store → Except String (MalType × Store)
  | 0, _, _, _ => .error "recursion depth exhausted"
  | _ + 1, args, envId, store =>
    match args with
    | [paramsExpr, body] =>
      match paramsExpr with
      | .List params =>
        match parseParams params with
        | .error e => .error e
        | .ok names => .ok (.Function names body envId false, store)
      | .Vector params =>
        match parseParams params with
        | .error e => .error e
        | .ok names => .ok (.Function names body envId false, store)
      | _ => .error "fn* first argument must be a list or vector"
    | _ => .error "fn* requires exactly 2 arguments"

/-- types.rs `apply_fn!`: build a scope whose outer is the closure's
captured scope, bind fixed parameters positionally (missing ones to
`Nil`), bind a trailing `& rest` parameter to a list of the surplus
arguments, and evaluate the body there.  (When fewer arguments than fixed
parameters reach a variadic closure the Rust slice `args[i..]` would
panic; that crash is unreachable from the reader, which never produces a
`&` symbol.) -/
def applyFn : Nat → MalType → List MalType → Store → Except String (MalType × Store)
  | 0, _, _, _ => .error "recursion depth exhausted"
  | f + 1, fv, args, store =>
    match fv with
    | .Function params body fenvId _ =>
      let (st1, newId) := envNew store (some fenvId)
      let isVar : Bool := decide (params.length ≥ 2) && params[params.length - 2]? == some "&"
      let regular := if isVar then params.length - 2 else params.length
      let st2 := bindParams newId (params.take regular) args st1
      let st3 :=
        if isVar then
          match params[params.length - 1]? with
          | some rname => envSet st2 newId rname (.List (args.drop regular))
          | none => st2
        else st2
      eval f body newId st3
    | _ => .error "Expected function"
termination_by structural f => f

/-- step4_if_fn_do.rs `apply_function`: closures via `apply_fn!`; builtin
operations dispatched by symbol name; otherwise fall back to an
environment lookup that must produce a closure.  (Source error texts
carrying formatted payloads are elided to their stable prefix.) -/
def applyFunction : Nat → MalType → List MalType → Nat → Store → Except String (MalType × Store)
  | 0, _, _, _, _ => .error "recursion depth exhausted"
  | f + 1, fv, args, envId, store =>
    match fv with
    | .Function _ _ _ _ => applyFn f fv args store
    | .Symbol s =>
      if s = "+" then arith (fun a b => a + b) "+" args store
      else if s = "-" then arith (fun a b => a - b) "-" args store
      else if s = "*" then arith (fun a b => a * b) "*" args store
      else if s = "/" then divBuiltin args store
      else if s = "=" then
        match args with
        | [a, b] => .ok (.Bool (malEq a b), store)
        | _ => .error "= requires exactly 2 arguments"
      else if s = ">" then cmpNums (fun a b => decide (a > b)) args store
      else if s = ">=" then cmpNums (fun a b => decide (a ≥ b)) args store
      else if s = "<" then cmpNums (fun a b => decide (a < b)) args store
      else if s = "<=" then cmpNums (fun a b => decide (a ≤ b)) args store
      else if s = "list" then .ok (.List args, store)
      else if s = "list?" then
        match args with
        | [.List _] => .ok (.Bool true, store)
        | [_] => .ok (.Bool false, store)
        | _ => .error "list? requires exactly 1 argument"
      else if s = "empty?" then
        match args with
        | [.List items] => .ok (.Bool items.isEmpty, store)
        | [.Vector items] => .ok (.Bool items.isEmpty, store)
        | [_] => .error "empty? requires a list or vector argument"
        | _ => .error "empty? requires exactly 1 argument"
      else if s = "count" then
        match args with
        | [.List items] => .ok (.Number items.length, store)
        | [.Vector items] => .ok (.Number items.length, store)
        | [.Nil] => .ok (.Number 0, store)
        | [_] => .error "count requires a list, vector, or nil argument"
        | _ => .error "count requires exactly 1 argument"
      else if s = "pr-str" then
        .ok (.Str (String.mk (joinSpace (args.map (prStr true)))), store)
      else if s = "str" then
        .ok (.Str (String.mk (concatAll (args.map (prStr false)))), store)
      else if s = "prn" then .ok (.Nil, store)
      else if s = "println" then .ok (.Nil, store)
      else if s = "not" then
        match args with
        | [.Bool false] => .ok (.Bool true, store)
        | [.Nil] => .ok (.Bool true, store)
        | [_] => .ok (.Bool false, store)
        | _ => .error "not requires exactly 1 argument"
      else
        match envGet store envId s with
        | some v =>
          match v with
          | .Function _ _ _ _ => applyFn f v args store
          | _ => .error "Symbol is not a function"
        | none => .error "Unknown function"
    | _ => .error "first element must be a function"
termination_by structural f => f

end

/-- step4_if_fn_do.rs `create_default_env`: the root scope maps
`nil`/`true`/`false` to the atomic values and each builtin name to a
marker symbol of the same name. -/
def defaultBindings : List (String × MalType) :=
  [("nil", .Nil), ("true", .Bool true), ("false", .Bool false),
   ("+", .Symbol "+"), ("-", .Symbol "-"), ("*", .Symbol "*"), ("/", .Symbol "/"),
   ("=", .Symbol "="), (">", .Symbol ">"), (">=", .Symbol ">="),
   ("<", .Symbol "<"), ("<=", .Symbol "<="),
   ("list", .Symbol "list"), ("list?", .Symbol "list?"),
   ("empty?", .Symbol "empty?"), ("count", .Symbol "count"),
   ("pr-str", .Symbol "pr-str"), ("str", .Symbol "str"),
   ("prn", .Symbol "prn"), ("println", .Symbol "println"),
   ("not", .Symbol "not")]

/-- The store holding only the default (root) environment. -/
def defaultStore : Store := [⟨defaultBindings, none⟩]

/-- Evaluation fuel used for the concrete programs considered here (well
above their recursion depth). -/
def evalFuel : Nat := 100

/-- The READ then EVAL pipeline of the step4 REPL (`rep!`) against the
default environment, returning the resulting value. -/
def runStr (s : String) : Except String MalType :=
  match read_str s.data with
  | .error e => .error e
  | .ok ast =>
    match eval evalFuel ast 0 defaultStore with
    | .error e => .error e
    | .ok (v, _) => .ok v

mutual
/-- Tokens emitted for a parse-range value: the token sequence that
`tokenize` produces on the printed text. -/
def emit : MalType → List Tok
  | .Number n => [.num n]
  | .Symbol s => [.sym s]
  | .Str s => [.strTok s]
  | .Keyword k => [.kw k]
  | .List items => .leftParen :: emitList items ++ [.rightParen]
  | .Vector items => .leftBracket :: emitList items ++ [.rightBracket]
  | .Map pairs => .leftBrace :: emitPairs pairs ++ [.rightBrace]
  | _ => []

def emitList : List MalType → List Tok
  | [] => []
  | x :: xs => emit x ++ emitList xs

def emitPairs : List (MalType × MalType) → List Tok
  | [] => []
  | (k, v) :: xs => emit k ++ emit v ++ emitPairs xs
end

/-- Symbol names producible by the tokenizer: nonempty, starting with a
symbol-start character, continuing with symbol characters, and not a
minus followed by a digit (which the tokenizer would lex as a number). -/
def wfSymbolB (s : String) : Bool :=
  match s.data with
  | [] => false
  | c :: rest => isSymStartCh c && (c :: rest).all isSymCh && !(c = '-' && digitNext rest)

/-- Keyword names producible by the tokenizer. -/
def wfKeywordB (k : String) : Bool := k.data.all isKeywordCh

mutual
/-- Characterization of the reader's range: values the parser can return,
which is exactly the class on which printing inverts parsing. -/
def wf : MalType → Bool
  | .Number n => inI64 n
  | .Symbol s => wfSymbolB s
  | .Str _ => true
  | .Keyword k => wfKeywordB k
  | .List items => wfList items
  | .Vector items => wfList items
  | .Map pairs => wfPairs pairs
  | _ => false

def wfList : List MalType → Bool
  | [] => true
  | x :: xs => wf x && wfList xs

def wfPairs : List (MalType × MalType) → Bool
  | [] => true
  | (k, v) :: xs => wf k && wf v && wfPairs xs
end

/-- A boundary suffix: empty, or starting with a character (space or a
closing delimiter) that stops any greedy token scan. -/
def boundaryB : List Char → Bool
  | [] => true
  | c :: _ => c = ' ' || c = ')' || c = ']' || c = '\x7d'

/-- Well-formedness of a single token: number tokens are in i64 range,
symbol and keyword payloads are lexically producible. -/
def twf : Tok → Bool
  | .num n => inI64 n
  | .sym s => wfSymbolB s
  | .kw k => wfKeywordB k
  | _ => true

end Mal

set_option maxRecDepth 100000

namespace Mal

theorem takeWhile_append_all {p : Char → Bool} : ∀ (l r : List Char), l.all p = true →
    (l ++ r).takeWhile p = l ++ r.takeWhile p := by
  intro l r
  induction l with
  | nil => intro _; rfl
  | cons x xs ih =>
    intro h
    simp only [List.all_cons, Bool.and_eq_true] at h
    simp [List.takeWhile_cons, h.1, ih h.2]

theorem dropWhile_append_all {p : Char → Bool} : ∀ (l r : List Char), l.all p = true →
    (l ++ r).dropWhile p = r.dropWhile p := by
  intro l r
  induction l with
  | nil => intro _; rfl
  | cons x xs ih =>
    intro h
    simp only [List.all_cons, Bool.and_eq_true] at h
    simp [List.dropWhile_cons, h.1, ih h.2]

theorem takeWhile_nil_of_head {p : Char → Bool} : ∀ (r : List Char),
    (∀ c rs, r = c :: rs → p c = false) → r.takeWhile p = [] := by
  intro r h
  cases r with
  | nil => rfl
  | cons c rs => simp [List.takeWhile_cons, h c rs rfl]

theorem dropWhile_self_of_head {p : Char → Bool} : ∀ (r : List Char),
    (∀ c rs, r = c :: rs → p c = false) → r.dropWhile p = r := by
  intro r h
  cases r with
  | nil => rfl
  | cons c rs => simp [List.dropWhile_cons, h c rs rfl]

theorem skipComment_length : ∀ cs : List Char, (skipComment cs).length ≤ cs.length := by
  intro cs
  induction cs with
  | nil => simp [skipComment]
  | cons c rest ih =>
    by_cases h : c = '\n'
    · simp [skipComment, h]
    · simp only [skipComment, if_neg h]
      exact Nat.le_succ_of_le ih

theorem readStringChars_length : ∀ (cs s r : List Char),
    readStringChars cs = .ok (s, r) → r.length < cs.length := by
  intro cs
  induction cs using readStringChars.induct with
  | case1 => intro s r h; exact absurd h (by simp [readStringChars])
  | case2 rest =>
    intro s r h
    simp [readStringChars] at h
    simp [h.2]
  | case3 => intro s r h; exact absurd h (by simp [readStringChars])
  | case4 ec rest2 ih =>
    intro s r h
    simp only [readStringChars] at h
    cases hr : readStringChars rest2 with
    | error e => rw [hr] at h; simp [Except.map] at h
    | ok p =>
      rw [hr] at h
      simp [Except.map] at h
      have := ih p.1 p.2 (by rw [hr])
      simp [← h.2]
      omega
  | case5 cc rest h1 h2 h3 ih =>
    intro s r h
    rw [readStringChars.eq_5 cc rest h1 h2 h3] at h
    cases hr : readStringChars rest with
    | error e => rw [hr] at h; simp [Except.map] at h
    | ok p =>
      rw [hr] at h
      simp [Except.map] at h
      have := ih p.1 p.2 (by rw [hr])
      simp [← h.2]
      omega

end Mal

namespace Mal


theorem isSymCh_of_start {c : Char} (h : isSymStartCh c = true) : isSymCh c = true := by
  simp [isSymStartCh, isAlphabeticCh, isSymSpecialCh] at h
  simp [isSymCh, isAlphanumericCh, isAlphabeticCh, isSymSpecialCh]
  omega

theorem length_dropWhile_le_ch (p : Char → Bool) : ∀ l : List Char,
    (l.dropWhile p).length ≤ l.length := by
  intro l
  induction l with
  | nil => simp
  | cons x xs ih =>
    by_cases h : p x
    · rw [List.dropWhile_cons_of_pos h]
      exact Nat.le_succ_of_le ih
    · rw [List.dropWhile_cons_of_neg h]

theorem tokenizeF_sat : ∀ (fuel : Nat) (cs : List Char), ∀ f2 : Nat, cs.length < fuel →
    cs.length < f2 → tokenizeF fuel cs = tokenizeF f2 cs := by
  intro fuel cs
  induction fuel, cs using tokenizeF.induct with
  | case1 x => intro f2 h1 h2; omega
  | case2 t ht =>
    intro f2 h1 h2
    obtain ⟨g2, rfl⟩ : ∃ g, f2 = g + 1 := ⟨f2 - 1, by omega⟩
    obtain ⟨g1, rfl⟩ : ∃ g, t = g + 1 := ⟨t - 1, by omega⟩
    rfl
  | case3 f cs ih =>
    intro f2 h1 h2
    obtain ⟨g2, rfl⟩ : ∃ g, f2 = g + 1 := ⟨f2 - 1, by omega⟩
    simp only [tokenizeF]
    exact ih g2 (by have := skipComment_length cs; simp at h1; omega)
      (by have := skipComment_length cs; simp at h2; omega)
  | case4 f cs s rest hrs ih =>
    intro f2 h1 h2
    obtain ⟨g2, rfl⟩ : ∃ g, f2 = g + 1 := ⟨f2 - 1, by omega⟩
    simp only [tokenizeF, hrs]
    have hlen := readStringChars_length cs s rest hrs
    rw [ih g2 (by simp at h1; omega) (by simp at h2; omega)]
  | case5 f cs e hrs =>
    intro f2 h1 h2
    obtain ⟨g2, rfl⟩ : ∃ g, f2 = g + 1 := ⟨f2 - 1, by omega⟩
    simp only [tokenizeF, hrs]
  | case6 f cs ih =>
    intro f2 h1 h2
    obtain ⟨g2, rfl⟩ : ∃ g, f2 = g + 1 := ⟨f2 - 1, by omega⟩
    simp only [tokenizeF]
    rw [ih g2 (by simp at h1; omega) (by simp at h2; omega)]
  | case7 f cs ih =>
    intro f2 h1 h2
    obtain ⟨g2, rfl⟩ : ∃ g, f2 = g + 1 := ⟨f2 - 1, by omega⟩
    simp only [tokenizeF]
    rw [ih g2 (by simp at h1; omega) (by simp at h2; omega)]
  | case8 f cs ih =>
    intro f2 h1 h2
    obtain ⟨g2, rfl⟩ : ∃ g, f2 = g + 1 := ⟨f2 - 1, by omega⟩
    simp only [tokenizeF]
    rw [ih g2 (by simp at h1; omega) (by simp at h2; omega)]
  | case9 f cs ih =>
    intro f2 h1 h2
    obtain ⟨g2, rfl⟩ : ∃ g, f2 = g + 1 := ⟨f2 - 1, by omega⟩
    simp only [tokenizeF]
    rw [ih g2 (by simp at h1; omega) (by simp at h2; omega)]
  | case10 f cs ih =>
    intro f2 h1 h2
    obtain ⟨g2, rfl⟩ : ∃ g, f2 = g + 1 := ⟨f2 - 1, by omega⟩
    simp only [tokenizeF]
    rw [ih g2 (by simp at h1; omega) (by simp at h2; omega)]
  | case11 f cs ih =>
    intro f2 h1 h2
    obtain ⟨g2, rfl⟩ : ∃ g, f2 = g + 1 := ⟨f2 - 1, by omega⟩
    simp only [tokenizeF]
    rw [ih g2 (by simp at h1; omega) (by simp at h2; omega)]
  | case12 f cs ih =>
    intro f2 h1 h2
    obtain ⟨g2, rfl⟩ : ∃ g, f2 = g + 1 := ⟨f2 - 1, by omega⟩
    simp only [tokenizeF]
    rw [ih g2 (by simp at h1; omega) (by simp at h2; omega)]
  | case13 f cs ih =>
    intro f2 h1 h2
    obtain ⟨g2, rfl⟩ : ∃ g, f2 = g + 1 := ⟨f2 - 1, by omega⟩
    simp only [tokenizeF]
    rw [ih g2 (by simp at h1; omega) (by simp at h2; omega)]
  | case14 f cs ih =>
    intro f2 h1 h2
    obtain ⟨g2, rfl⟩ : ∃ g, f2 = g + 1 := ⟨f2 - 1, by omega⟩
    simp only [tokenizeF]
    rw [ih g2 (by simp at h1; omega) (by simp at h2; omega)]
  | case15 f cs hside ih =>
    intro f2 h1 h2
    obtain ⟨g2, rfl⟩ : ∃ g, f2 = g + 1 := ⟨f2 - 1, by omega⟩
    rw [tokenizeF.eq_14 f cs hside, tokenizeF.eq_14 g2 cs hside]
    rw [ih g2 (by simp at h1; omega) (by simp at h2; omega)]
  | case16 f cs ih =>
    intro f2 h1 h2
    obtain ⟨g2, rfl⟩ : ∃ g, f2 = g + 1 := ⟨f2 - 1, by omega⟩
    simp only [tokenizeF]
    rw [ih g2 (by simp at h1; omega) (by simp at h2; omega)]
  | case17 f cs ih =>
    intro f2 h1 h2
    obtain ⟨g2, rfl⟩ : ∃ g, f2 = g + 1 := ⟨f2 - 1, by omega⟩
    simp only [tokenizeF]
    rw [ih g2 (by simp at h1; omega) (by simp at h2; omega)]
  | case18 f cs ih =>
    intro f2 h1 h2
    obtain ⟨g2, rfl⟩ : ∃ g, f2 = g + 1 := ⟨f2 - 1, by omega⟩
    simp only [tokenizeF]
    rw [ih g2 (by have := length_dropWhile_le_ch isKeywordCh cs; simp at h1; omega)
      (by have := length_dropWhile_le_ch isKeywordCh cs; simp at h2; omega)]
  | case19 f cs ih =>
    intro f2 h1 h2
    obtain ⟨g2, rfl⟩ : ∃ g, f2 = g + 1 := ⟨f2 - 1, by omega⟩
    simp only [tokenizeF]
    rw [ih g2 (by simp at h1; omega) (by simp at h2; omega)]
  | case20 f c cs h1 h2 h3 h4 h5 h6 h7 h8 h9 h10 h11 h12 h13 h14 h15 h16 hws ih =>
    intro f2 hl1 hl2
    obtain ⟨g2, rfl⟩ : ∃ g, f2 = g + 1 := ⟨f2 - 1, by omega⟩
    rw [tokenizeF.eq_19 f c cs h1 h2 h3 h4 h5 h6 h7 h8 h9 h10 h11 h12 h13 h14 h15 h16,
        tokenizeF.eq_19 g2 c cs h1 h2 h3 h4 h5 h6 h7 h8 h9 h10 h11 h12 h13 h14 h15 h16]
    simp only [if_pos hws]
    rw [ih g2 (by simp at hl1; omega) (by simp at hl2; omega)]
  | case21 f c cs h1 h2 h3 h4 h5 h6 h7 h8 h9 h10 h11 h12 h13 h14 h15 h16 hws hnum cs1 digits rest v hin ih =>
    intro f2 hl1 hl2
    obtain ⟨g2, rfl⟩ : ∃ g, f2 = g + 1 := ⟨f2 - 1, by omega⟩
    rw [tokenizeF.eq_19 f c cs h1 h2 h3 h4 h5 h6 h7 h8 h9 h10 h11 h12 h13 h14 h15 h16,
        tokenizeF.eq_19 g2 c cs h1 h2 h3 h4 h5 h6 h7 h8 h9 h10 h11 h12 h13 h14 h15 h16]
    simp only [if_neg hws, if_pos hnum]
    simp only [if_pos hin]
    have hrest : (List.dropWhile isDigitCh (if c = '-' then cs else c :: cs)).length
        ≤ cs.length := by
      by_cases hc : c = '-'
      · simp only [if_pos hc]
        exact length_dropWhile_le_ch _ _
      · simp only [if_neg hc]
        have hd : isDigitCh c = true := by
          simp [Bool.or_eq_true, decide_eq_true_iff, hc] at hnum
          exact hnum
        rw [List.dropWhile_cons_of_pos hd]
        exact length_dropWhile_le_ch _ _
    rw [ih g2
      (show (List.dropWhile isDigitCh (if c = '-' then cs else c :: cs)).length < f by
        simp at hl1; omega)
      (show (List.dropWhile isDigitCh (if c = '-' then cs else c :: cs)).length < g2 by
        simp at hl2; omega)]
  | case22 f c cs h1 h2 h3 h4 h5 h6 h7 h8 h9 h10 h11 h12 h13 h14 h15 h16 hws hnum cs1 digits rest v hin ih =>
    intro f2 hl1 hl2
    obtain ⟨g2, rfl⟩ : ∃ g, f2 = g + 1 := ⟨f2 - 1, by omega⟩
    rw [tokenizeF.eq_19 f c cs h1 h2 h3 h4 h5 h6 h7 h8 h9 h10 h11 h12 h13 h14 h15 h16,
        tokenizeF.eq_19 g2 c cs h1 h2 h3 h4 h5 h6 h7 h8 h9 h10 h11 h12 h13 h14 h15 h16]
    simp only [if_neg hws, if_pos hnum]
    simp only [if_neg hin]
    have hrest : (List.dropWhile isDigitCh (if c = '-' then cs else c :: cs)).length
        ≤ cs.length := by
      by_cases hc : c = '-'
      · simp only [if_pos hc]
        exact length_dropWhile_le_ch _ _
      · simp only [if_neg hc]
        have hd : isDigitCh c = true := by
          simp [Bool.or_eq_true, decide_eq_true_iff, hc] at hnum
          exact hnum
        rw [List.dropWhile_cons_of_pos hd]
        exact length_dropWhile_le_ch _ _
    rw [ih g2
      (show (List.dropWhile isDigitCh (if c = '-' then cs else c :: cs)).length < f by
        simp at hl1; omega)
      (show (List.dropWhile isDigitCh (if c = '-' then cs else c :: cs)).length < g2 by
        simp at hl2; omega)]
  | case23 f c cs h1 h2 h3 h4 h5 h6 h7 h8 h9 h10 h11 h12 h13 h14 h15 h16 hws hnum hsym ih =>
    intro f2 hl1 hl2
    obtain ⟨g2, rfl⟩ : ∃ g, f2 = g + 1 := ⟨f2 - 1, by omega⟩
    rw [tokenizeF.eq_19 f c cs h1 h2 h3 h4 h5 h6 h7 h8 h9 h10 h11 h12 h13 h14 h15 h16,
        tokenizeF.eq_19 g2 c cs h1 h2 h3 h4 h5 h6 h7 h8 h9 h10 h11 h12 h13 h14 h15 h16]
    simp only [if_neg hws, if_neg hnum, if_pos hsym]
    have hrest : (List.dropWhile isSymCh (c :: cs)).length ≤ cs.length := by
      rw [List.dropWhile_cons_of_pos (isSymCh_of_start hsym)]
      exact length_dropWhile_le_ch _ _
    rw [ih g2 (by simp at hl1; omega) (by simp at hl2; omega)]
  | case24 f c cs h1 h2 h3 h4 h5 h6 h7 h8 h9 h10 h11 h12 h13 h14 h15 h16 hws hnum hsym ih =>
    intro f2 hl1 hl2
    obtain ⟨g2, rfl⟩ : ∃ g, f2 = g + 1 := ⟨f2 - 1, by omega⟩
    rw [tokenizeF.eq_19 f c cs h1 h2 h3 h4 h5 h6 h7 h8 h9 h10 h11 h12 h13 h14 h15 h16,
        tokenizeF.eq_19 g2 c cs h1 h2 h3 h4 h5 h6 h7 h8 h9 h10 h11 h12 h13 h14 h15 h16]
    simp only [if_neg hws, if_neg hnum, if_neg hsym]
    rw [ih g2 (by simp at hl1; omega) (by simp at hl2; omega)]

end Mal

namespace Mal


theorem msize_pos : ∀ e : MalType, 1 ≤ msize e := by
  intro e; cases e <;> simp [msize]

theorem toNat_ofNat_digit : ∀ m : Nat, m < 10 → (Char.ofNat (48 + m)).toNat = 48 + m := by
  intro m hm
  interval_cases m <;> decide

theorem isDigitCh_ofNat_digit : ∀ m : Nat, m < 10 → isDigitCh (Char.ofNat (48 + m)) = true := by
  intro m hm
  interval_cases m <;> decide

theorem charsToNat_append_digit (l : List Char) (d : Char) :
    charsToNat (l ++ [d]) = 10 * charsToNat l + (d.toNat - 48) := by
  simp [charsToNat, List.foldl_append]

theorem natDigits_spec : ∀ (fuel n : Nat), n < 10 ^ fuel → 1 ≤ fuel →
    (natDigits fuel n).all isDigitCh = true ∧ natDigits fuel n ≠ [] ∧
    charsToNat (natDigits fuel n) = n := by
  intro fuel
  induction fuel with
  | zero => intro n h hf; omega
  | succ f ih =>
    intro n h _
    by_cases hn : n < 10
    · refine ⟨?_, ?_, ?_⟩
      · simp only [natDigits, if_pos hn, List.all_cons, List.all_nil, Bool.and_true]
        exact isDigitCh_ofNat_digit n hn
      · simp [natDigits, if_pos hn]
      · simp only [natDigits, if_pos hn]
        have := toNat_ofNat_digit n hn
        simp [charsToNat, this]
    · have h10 : 10 ^ (f + 1) = 10 ^ f * 10 := by ring
      have hdiv : n / 10 < 10 ^ f := by omega
      have hf1 : 1 ≤ f := by
        by_contra hc
        have : f = 0 := by omega
        subst this
        simp at h
        omega
      obtain ⟨ha, hne, hval⟩ := ih (n / 10) hdiv hf1
      have hmod : n % 10 < 10 := by omega
      refine ⟨?_, ?_, ?_⟩
      · simp only [natDigits, if_neg hn, List.all_append, ha, List.all_cons, List.all_nil,
          Bool.and_true, Bool.true_and]
        exact isDigitCh_ofNat_digit (n % 10) hmod
      · simp [natDigits, if_neg hn]
      · simp only [natDigits, if_neg hn]
        rw [charsToNat_append_digit, hval, toNat_ofNat_digit (n % 10) hmod]
        omega

theorem natToChars_spec (n : Nat) :
    (natToChars n).all isDigitCh = true ∧ natToChars n ≠ [] ∧
    charsToNat (natToChars n) = n := by
  have hlt : n < 10 ^ (n + 1) := by
    calc n < 10 ^ n := Nat.lt_pow_self (by norm_num) n
    _ ≤ 10 ^ (n + 1) := Nat.pow_le_pow_right (by norm_num) (Nat.le_succ n)
  exact natDigits_spec (n + 1) n hlt (by omega)

end Mal

namespace Mal

theorem boundary_head_facts : ∀ (r : List Char), boundaryB r = true →
    r.takeWhile isDigitCh = [] ∧ r.dropWhile isDigitCh = r ∧
    r.takeWhile isSymCh = [] ∧ r.dropWhile isSymCh = r ∧
    r.takeWhile isKeywordCh = [] ∧ r.dropWhile isKeywordCh = r ∧
    digitNext r = false := by
  intro r hb
  cases r with
  | nil => simp [digitNext]
  | cons c rs =>
    have hc : c = ' ' ∨ c = ')' ∨ c = ']' ∨ c = '\x7d' := by
      simpa [boundaryB, Bool.or_eq_true, decide_eq_true_iff, or_assoc] using hb
    rcases hc with h | h | h | h <;> subst h <;>
      simp +decide [List.takeWhile_cons, List.dropWhile_cons, digitNext]

theorem tokenizeF_ws (f : Nat) (c : Char) (cs : List Char) (h : isWhitespaceCh c = true) :
    tokenizeF (f + 1) (c :: cs) = tokenizeF f cs := by
  have hw : c.toNat = 32 ∨ c.toNat = 9 ∨ c.toNat = 10 ∨ c.toNat = 13 ∨ c.toNat = 11 ∨
      c.toNat = 12 := by
    simpa [isWhitespaceCh, Bool.or_eq_true, decide_eq_true_iff, or_assoc] using h
  rw [tokenizeF.eq_19 f c cs
    (fun he => absurd (he ▸ hw) (by decide)) (fun he => absurd (he ▸ hw) (by decide))
    (fun he => absurd (he ▸ hw) (by decide)) (fun he => absurd (he ▸ hw) (by decide))
    (fun he => absurd (he ▸ hw) (by decide)) (fun he => absurd (he ▸ hw) (by decide))
    (fun he => absurd (he ▸ hw) (by decide)) (fun he => absurd (he ▸ hw) (by decide))
    (fun he => absurd (he ▸ hw) (by decide)) (fun he => absurd (he ▸ hw) (by decide))
    (fun _ he _ => absurd (he ▸ hw) (by decide)) (fun he => absurd (he ▸ hw) (by decide))
    (fun he => absurd (he ▸ hw) (by decide)) (fun he => absurd (he ▸ hw) (by decide))
    (fun he => absurd (he ▸ hw) (by decide)) (fun he => absurd (he ▸ hw) (by decide))]
  rw [if_pos h]

theorem tokenizeF_digit (f : Nat) (c : Char) (cs : List Char) (hd : isDigitCh c = true) :
    tokenizeF (f + 1) (c :: cs)
      = if inI64 (charsToNat ((c :: cs).takeWhile isDigitCh) : Int) = true
        then Except.map (fun ts => Tok.num (charsToNat ((c :: cs).takeWhile isDigitCh) : Int) :: ts)
               (tokenizeF f ((c :: cs).dropWhile isDigitCh))
        else tokenizeF f ((c :: cs).dropWhile isDigitCh) := by
  have hn : 48 ≤ c.toNat ∧ c.toNat ≤ 57 := by
    simpa [isDigitCh, Bool.and_eq_true, decide_eq_true_iff] using hd
  have hws : ¬ isWhitespaceCh c = true := by
    simp [isWhitespaceCh, Bool.or_eq_true, decide_eq_true_iff]
    omega
  have hnum : (isDigitCh c || decide (c = '-') && digitNext cs) = true := by
    simp [hd]
  have hcm : ¬ c = '-' := fun he => absurd (he ▸ hn) (by decide)
  rw [tokenizeF.eq_19 f c cs
    (fun he => absurd (he ▸ hn) (by decide)) (fun he => absurd (he ▸ hn) (by decide))
    (fun he => absurd (he ▸ hn) (by decide)) (fun he => absurd (he ▸ hn) (by decide))
    (fun he => absurd (he ▸ hn) (by decide)) (fun he => absurd (he ▸ hn) (by decide))
    (fun he => absurd (he ▸ hn) (by decide)) (fun he => absurd (he ▸ hn) (by decide))
    (fun he => absurd (he ▸ hn) (by decide)) (fun he => absurd (he ▸ hn) (by decide))
    (fun _ he _ => absurd (he ▸ hn) (by decide)) (fun he => absurd (he ▸ hn) (by decide))
    (fun he => absurd (he ▸ hn) (by decide)) (fun he => absurd (he ▸ hn) (by decide))
    (fun he => absurd (he ▸ hn) (by decide)) (fun he => absurd (he ▸ hn) (by decide))]
  rw [if_neg hws, if_pos hnum]
  simp only [if_neg hcm]

theorem tokenizeF_minus (f : Nat) (cs : List Char) (h : digitNext cs = true) :
    tokenizeF (f + 1) ('-' :: cs)
      = if inI64 (-(charsToNat (cs.takeWhile isDigitCh) : Int)) = true
        then Except.map (fun ts => Tok.num (-(charsToNat (cs.takeWhile isDigitCh) : Int)) :: ts)
               (tokenizeF f (cs.dropWhile isDigitCh))
        else tokenizeF f (cs.dropWhile isDigitCh) := by
  have hnum : (isDigitCh '-' || decide (('-' : Char) = '-') && digitNext cs) = true := by
    simp [h]
  rw [tokenizeF.eq_19 f '-' cs
    (by decide) (by decide) (by decide) (by decide) (by decide) (by decide) (by decide)
    (by decide) (by decide) (by decide) (fun _ he _ => by exact absurd he (by decide))
    (by decide) (by decide) (by decide) (by decide) (by decide)]
  rw [if_neg (by decide), if_pos hnum]
  simp

set_option maxHeartbeats 1000000 in
theorem tokenizeF_symbolStep (f : Nat) (c : Char) (cs : List Char)
    (hs : isSymStartCh c = true) (hmd : c = '-' → digitNext cs = false) :
    tokenizeF (f + 1) (c :: cs)
      = Except.map (fun ts => Tok.sym (String.mk ((c :: cs).takeWhile isSymCh)) :: ts)
          (tokenizeF f ((c :: cs).dropWhile isSymCh)) := by
  have hn : (97 ≤ c.toNat ∧ c.toNat ≤ 122) ∨ (65 ≤ c.toNat ∧ c.toNat ≤ 90) ∨
      c.toNat = 43 ∨ c.toNat = 45 ∨ c.toNat = 42 ∨ c.toNat = 47 ∨ c.toNat = 60 ∨
      c.toNat = 62 ∨ c.toNat = 61 ∨ c.toNat = 33 ∨ c.toNat = 63 ∨ c.toNat = 95 := by
    have := hs
    simp [isSymStartCh, isAlphabeticCh, isSymSpecialCh, Bool.or_eq_true,
      Bool.and_eq_true, decide_eq_true_iff] at this
    tauto
  have hws : ¬ isWhitespaceCh c = true := by
    simp [isWhitespaceCh, Bool.or_eq_true, decide_eq_true_iff]
    omega
  have hdig : isDigitCh c = false := by
    simp [isDigitCh, decide_eq_true_iff]
    omega
  have hnum : ¬ (isDigitCh c || decide (c = '-') && digitNext cs) = true := by
    simp [hdig]
    intro hcm
    exact hmd hcm
  rw [tokenizeF.eq_19 f c cs
    (fun he => absurd (he ▸ hn) (by decide)) (fun he => absurd (he ▸ hn) (by decide))
    (fun he => absurd (he ▸ hn) (by decide)) (fun he => absurd (he ▸ hn) (by decide))
    (fun he => absurd (he ▸ hn) (by decide)) (fun he => absurd (he ▸ hn) (by decide))
    (fun he => absurd (he ▸ hn) (by decide)) (fun he => absurd (he ▸ hn) (by decide))
    (fun he => absurd (he ▸ hn) (by decide)) (fun he => absurd (he ▸ hn) (by decide))
    (fun _ he _ => absurd (he ▸ hn) (by decide)) (fun he => absurd (he ▸ hn) (by decide))
    (fun he => absurd (he ▸ hn) (by decide)) (fun he => absurd (he ▸ hn) (by decide))
    (fun he => absurd (he ▸ hn) (by decide)) (fun he => absurd (he ▸ hn) (by decide))]
  rw [if_neg hws, if_neg hnum, if_pos hs]

end Mal

namespace Mal

theorem exceptMap_map {α β γ ε : Type} (f : β → γ) (g : α → β) (x : Except ε α) :
    Except.map f (Except.map g x) = Except.map (fun a => f (g a)) x := by
  cases x <;> rfl

theorem tokenize_rparen (r : List Char) :
    tokenize (')' :: r) = Except.map (fun ts => Tok.rightParen :: ts) (tokenize r) := by
  show tokenizeF ((')' :: r).length + 1) (')' :: r) = _
  rw [show (')' :: r).length + 1 = (r.length + 1) + 1 by simp]
  rw [tokenizeF.eq_6]
  rfl

theorem tokenize_rbracket (r : List Char) :
    tokenize (']' :: r) = Except.map (fun ts => Tok.rightBracket :: ts) (tokenize r) := by
  show tokenizeF ((']' :: r).length + 1) (']' :: r) = _
  rw [show (']' :: r).length + 1 = (r.length + 1) + 1 by simp]
  rw [tokenizeF.eq_8]
  rfl

theorem tokenize_rbrace (r : List Char) :
    tokenize ('\x7d' :: r) = Except.map (fun ts => Tok.rightBrace :: ts) (tokenize r) := by
  show tokenizeF (('\x7d' :: r).length + 1) ('\x7d' :: r) = _
  rw [show ('\x7d' :: r).length + 1 = (r.length + 1) + 1 by simp]
  rw [tokenizeF.eq_10]
  rfl

theorem tokenize_lparen (r : List Char) :
    tokenize ('(' :: r) = Except.map (fun ts => Tok.leftParen :: ts) (tokenize r) := by
  show tokenizeF (('(' :: r).length + 1) ('(' :: r) = _
  rw [show ('(' :: r).length + 1 = (r.length + 1) + 1 by simp]
  rw [tokenizeF.eq_5]
  rfl

theorem tokenize_lbracket (r : List Char) :
    tokenize ('[' :: r) = Except.map (fun ts => Tok.leftBracket :: ts) (tokenize r) := by
  show tokenizeF (('[' :: r).length + 1) ('[' :: r) = _
  rw [show ('[' :: r).length + 1 = (r.length + 1) + 1 by simp]
  rw [tokenizeF.eq_7]
  rfl

theorem tokenize_lbrace (r : List Char) :
    tokenize ('\x7b' :: r) = Except.map (fun ts => Tok.leftBrace :: ts) (tokenize r) := by
  show tokenizeF (('\x7b' :: r).length + 1) ('\x7b' :: r) = _
  rw [show ('\x7b' :: r).length + 1 = (r.length + 1) + 1 by simp]
  rw [tokenizeF.eq_9]
  rfl

theorem tokenize_space (r : List Char) : tokenize (' ' :: r) = tokenize r := by
  show tokenizeF ((' ' :: r).length + 1) (' ' :: r) = _
  rw [show ((' ' :: r)).length + 1 = (r.length + 1) + 1 by simp]
  rw [tokenizeF_ws _ _ _ (by decide)]
  rfl

theorem tok_number (n : Int) (hin : inI64 n = true) (r : List Char) (hb : boundaryB r = true) :
    tokenize (intToChars n ++ r) = Except.map (fun ts => Tok.num n :: ts) (tokenize r) := by
  obtain ⟨hbd1, hbd2, _, _, _, _, hbd7⟩ := boundary_head_facts r hb
  by_cases hneg : n < 0
  · obtain ⟨hall, hne, hval⟩ := natToChars_spec n.natAbs
    have lhs1 : intToChars n ++ r = '-' :: (natToChars n.natAbs ++ r) := by
      simp [intToChars, if_pos hneg]
    rw [lhs1]
    obtain ⟨d, ds, hds⟩ : ∃ d ds, natToChars n.natAbs = d :: ds := by
      cases hds : natToChars n.natAbs with
      | nil => exact absurd hds hne
      | cons d ds => exact ⟨d, ds, rfl⟩
    have hddig : isDigitCh d = true := by
      rw [hds] at hall
      simp [List.all_cons] at hall
      exact hall.1
    have hdn : digitNext (natToChars n.natAbs ++ r) = true := by
      rw [hds]
      simpa [digitNext] using hddig
    show tokenizeF (('-' :: (natToChars n.natAbs ++ r)).length + 1) _ = _
    rw [show ('-' :: (natToChars n.natAbs ++ r)).length + 1
        = ((natToChars n.natAbs ++ r).length + 1) + 1 by simp]
    rw [tokenizeF_minus _ _ hdn]
    rw [takeWhile_append_all _ _ hall, dropWhile_append_all _ _ hall, hbd1, hbd2]
    rw [List.append_nil, hval]
    have hvn : -((n.natAbs : Nat) : Int) = n := by omega
    rw [hvn, if_pos hin]
    have hsat : tokenizeF ((natToChars n.natAbs ++ r).length + 1) r = tokenize r := by
      apply tokenizeF_sat
      · rw [hds]; simp; omega
      · omega
    rw [hsat]
  · obtain ⟨hall, hne, hval⟩ := natToChars_spec n.toNat
    have lhs1 : intToChars n ++ r = natToChars n.toNat ++ r := by
      simp [intToChars, if_neg hneg]
    rw [lhs1]
    obtain ⟨d, ds, hds⟩ : ∃ d ds, natToChars n.toNat = d :: ds := by
      cases hds : natToChars n.toNat with
      | nil => exact absurd hds hne
      | cons d ds => exact ⟨d, ds, rfl⟩
    have hddig : isDigitCh d = true := by
      rw [hds] at hall
      simp [List.all_cons] at hall
      exact hall.1
    rw [hds, List.cons_append]
    show tokenizeF ((d :: (ds ++ r)).length + 1) _ = _
    rw [show (d :: (ds ++ r)).length + 1 = ((ds ++ r).length + 1) + 1 by simp]
    rw [tokenizeF_digit _ _ _ hddig]
    have hall2 : (d :: ds).all isDigitCh = true := by rw [← hds]; exact hall
    rw [show (d :: (ds ++ r)) = (d :: ds) ++ r by simp]
    rw [takeWhile_append_all _ _ hall2, dropWhile_append_all _ _ hall2, hbd1, hbd2]
    rw [List.append_nil]
    have hval2 : charsToNat (d :: ds) = n.toNat := by rw [← hds]; exact hval
    rw [hval2]
    have hvn : ((n.toNat : Nat) : Int) = n := by omega
    rw [hvn, if_pos hin]
    have hsat : tokenizeF ((ds ++ r).length + 1) r = tokenize r := by
      apply tokenizeF_sat
      · simp
        omega
      · omega
    rw [hsat]

end Mal

namespace Mal

theorem string_mk_data (s : String) : String.mk s.data = s := by
  cases s
  rfl

theorem tok_symbol (s : String) (hwf : wfSymbolB s = true) (r : List Char)
    (hb : boundaryB r = true) :
    tokenize (s.data ++ r) = Except.map (fun ts => Tok.sym s :: ts) (tokenize r) := by
  obtain ⟨_, _, hbs1, hbs2, _, _, hbd7⟩ := boundary_head_facts r hb
  cases hsd : s.data with
  | nil => simp [wfSymbolB, hsd] at hwf
  | cons c rest =>
    have h3 := hwf
    simp only [wfSymbolB, hsd, Bool.and_eq_true, Bool.not_eq_true', Bool.and_eq_false_iff] at h3
    obtain ⟨⟨hstart, hall⟩, hmd⟩ := h3
    have hmd2 : c = '-' → digitNext (rest ++ r) = false := by
      intro hc
      cases rest with
      | nil => simpa [digitNext] using hbd7
      | cons x xs =>
        rcases hmd with hmd | hmd
        · rw [hc] at hmd
          simp at hmd
        · simpa [digitNext] using hmd
    rw [List.cons_append]
    show tokenizeF ((c :: (rest ++ r)).length + 1) _ = _
    rw [show (c :: (rest ++ r)).length + 1 = ((rest ++ r).length + 1) + 1 by simp]
    rw [tokenizeF_symbolStep _ _ _ hstart hmd2]
    rw [show (c :: (rest ++ r)) = (c :: rest) ++ r by simp]
    rw [takeWhile_append_all _ _ hall, dropWhile_append_all _ _ hall, hbs1, hbs2,
      List.append_nil]
    have hmk : String.mk (c :: rest) = s := by rw [← hsd]
    rw [hmk]
    have hsat : tokenizeF ((rest ++ r).length + 1) r = tokenize r := by
      apply tokenizeF_sat
      · simp
        omega
      · omega
    rw [hsat]

theorem tok_keyword (k : String) (hwf : wfKeywordB k = true) (r : List Char)
    (hb : boundaryB r = true) :
    tokenize (':' :: (k.data ++ r)) = Except.map (fun ts => Tok.kw k :: ts) (tokenize r) := by
  obtain ⟨_, _, _, _, hbk1, hbk2, _⟩ := boundary_head_facts r hb
  show tokenizeF ((':' :: (k.data ++ r)).length + 1) _ = _
  rw [show (':' :: (k.data ++ r)).length + 1 = ((k.data ++ r).length + 1) + 1 by simp]
  rw [tokenizeF.eq_17]
  rw [takeWhile_append_all _ _ hwf, dropWhile_append_all _ _ hwf, hbk1, hbk2,
    List.append_nil, string_mk_data]
  have hsat : tokenizeF ((k.data ++ r).length + 1) r = tokenize r := by
    apply tokenizeF_sat
    · simp
      omega
    · omega
  rw [hsat]

theorem readString_esc (r : List Char) : ∀ d : List Char,
    readStringChars (d.flatMap escChar ++ '\x22' :: r) = .ok (d, r) := by
  intro d
  induction d with
  | nil => simp [readStringChars]
  | cons c cs ih =>
    by_cases h1 : c = '\\'
    · subst h1
      rw [List.flatMap_cons, show escChar '\\' = ['\\', '\\'] from rfl,
        List.append_assoc]
      rw [show (['\\', '\\'] : List Char) ++ (cs.flatMap escChar ++ '\x22' :: r)
          = '\\' :: '\\' :: (cs.flatMap escChar ++ '\x22' :: r) from rfl]
      rw [readStringChars.eq_4, ih]
      rfl
    · by_cases h2 : c = '\n'
      · subst h2
        rw [List.flatMap_cons, show escChar '\n' = ['\\', 'n'] from rfl,
          List.append_assoc]
        rw [show (['\\', 'n'] : List Char) ++ (cs.flatMap escChar ++ '\x22' :: r)
            = '\\' :: 'n' :: (cs.flatMap escChar ++ '\x22' :: r) from rfl]
        rw [readStringChars.eq_4, ih]
        rfl
      · by_cases h3 : c = '\x22'
        · subst h3
          rw [List.flatMap_cons, show escChar '\x22' = ['\\', '\x22'] from rfl,
            List.append_assoc]
          rw [show (['\\', '\x22'] : List Char) ++ (cs.flatMap escChar ++ '\x22' :: r)
              = '\\' :: '\x22' :: (cs.flatMap escChar ++ '\x22' :: r) from rfl]
          rw [readStringChars.eq_4, ih]
          rfl
        · rw [List.flatMap_cons, show escChar c = [c] by simp [escChar, h1, h2, h3],
            List.append_assoc]
          rw [show ([c] : List Char) ++ (cs.flatMap escChar ++ '\x22' :: r)
              = c :: (cs.flatMap escChar ++ '\x22' :: r) from rfl]
          rw [readStringChars.eq_5 c _ (fun he => h3 he) (fun he _ => h1 he)
            (fun _ _ he _ => h1 he)]
          rw [ih]
          rfl

theorem tok_string (s : String) (r : List Char) :
    tokenize ('\x22' :: (s.data.flatMap escChar ++ '\x22' :: r))
      = Except.map (fun ts => Tok.strTok s :: ts) (tokenize r) := by
  show tokenizeF (('\x22' :: (s.data.flatMap escChar ++ '\x22' :: r)).length + 1) _ = _
  rw [show ('\x22' :: (s.data.flatMap escChar ++ '\x22' :: r)).length + 1
      = ((s.data.flatMap escChar ++ '\x22' :: r).length + 1) + 1 by simp]
  rw [tokenizeF.eq_4]
  rw [readString_esc r s.data]
  show Except.map (fun ts => Tok.strTok (String.mk s.data) :: ts)
      (tokenizeF ((s.data.flatMap escChar ++ '\x22' :: r).length + 1) r) = _
  rw [string_mk_data]
  have hsat : tokenizeF ((s.data.flatMap escChar ++ '\x22' :: r).length + 1) r
      = tokenize r := by
    apply tokenizeF_sat
    · simp
      omega
    · omega
  rw [hsat]

end Mal

namespace Mal

theorem exceptMap_id {α ε : Type} (x : Except ε α) :
    Except.map (fun ts : α => ts) x = x := by
  cases x <;> rfl

theorem tokenize_print : ∀ N : Nat,
    (∀ e, msize e ≤ N → wf e = true → ∀ r, boundaryB r = true →
      tokenize (prStr true e ++ r) = Except.map (fun ts => emit e ++ ts) (tokenize r)) ∧
    (∀ items, msizeList items ≤ N → wfList items = true → ∀ r, boundaryB r = true →
      tokenize (prJoin true items ++ r)
        = Except.map (fun ts => emitList items ++ ts) (tokenize r)) ∧
    (∀ pairs, msizePairs pairs ≤ N → wfPairs pairs = true → ∀ r, boundaryB r = true →
      tokenize (prJoinPairs true pairs ++ r)
        = Except.map (fun ts => emitPairs pairs ++ ts) (tokenize r)) := by
  intro N
  induction N with
  | zero =>
    refine ⟨?_, ?_, ?_⟩
    · intro e hsz
      have := msize_pos e
      omega
    · intro items hsz hwf r hb
      have : items = [] := by
        cases items with
        | nil => rfl
        | cons x xs => have := msize_pos x; simp [msizeList] at hsz; omega
      subst this
      simp [prJoin, emitList, exceptMap_id]
    · intro pairs hsz hwf r hb
      have : pairs = [] := by
        cases pairs with
        | nil => rfl
        | cons p ps =>
          obtain ⟨k, v⟩ := p
          have := msize_pos k
          simp [msizePairs] at hsz
          omega
      subst this
      simp [prJoinPairs, emitPairs, exceptMap_id]
  | succ N ih =>
    obtain ⟨ihE, ihL, ihP⟩ := ih
    have stepE : ∀ e, msize e ≤ N + 1 → wf e = true → ∀ r, boundaryB r = true →
        tokenize (prStr true e ++ r) = Except.map (fun ts => emit e ++ ts) (tokenize r) := by
      intro e hsz hwf r hb
      cases e with
      | Nil => simp [wf] at hwf
      | Bool b => simp [wf] at hwf
      | Function ps b id m => simp [wf] at hwf
      | Number n =>
        rw [show prStr true (.Number n) = intToChars n from rfl]
        rw [tok_number n (by simpa [wf] using hwf) r hb]
        rfl
      | Symbol s =>
        rw [show prStr true (.Symbol s) = s.data from rfl]
        rw [tok_symbol s (by simpa [wf] using hwf) r hb]
        rfl
      | Keyword k =>
        rw [show prStr true (.Keyword k) = ':' :: k.data from rfl, List.cons_append]
        rw [tok_keyword k (by simpa [wf] using hwf) r hb]
        rfl
      | Str s =>
        rw [show prStr true (.Str s) = '\x22' :: (s.data.flatMap escChar) ++ ['\x22']
            from rfl]
        rw [show ('\x22' :: (s.data.flatMap escChar) ++ ['\x22']) ++ r
            = '\x22' :: (s.data.flatMap escChar ++ '\x22' :: r) by simp]
        rw [tok_string s r]
        rfl
      | List items =>
        rw [show prStr true (.List items) = '(' :: prJoin true items ++ [')'] from rfl]
        rw [show ('(' :: prJoin true items ++ [')']) ++ r
            = '(' :: (prJoin true items ++ (')' :: r)) by simp]
        rw [tokenize_lparen]
        rw [ihL items (by simp [msize] at hsz; omega) (by simpa [wf] using hwf)
          (')' :: r) (by simp [boundaryB])]
        rw [tokenize_rparen]
        rw [exceptMap_map, exceptMap_map]
        have : ∀ ts : List Tok, Tok.leftParen :: (emitList items ++ Tok.rightParen :: ts)
            = emit (.List items) ++ ts := by
          intro ts
          simp [emit, List.append_assoc]
        simp only [this]
      | Vector items =>
        rw [show prStr true (.Vector items) = '[' :: prJoin true items ++ [']'] from rfl]
        rw [show ('[' :: prJoin true items ++ [']']) ++ r
            = '[' :: (prJoin true items ++ (']' :: r)) by simp]
        rw [tokenize_lbracket]
        rw [ihL items (by simp [msize] at hsz; omega) (by simpa [wf] using hwf)
          (']' :: r) (by simp [boundaryB])]
        rw [tokenize_rbracket]
        rw [exceptMap_map, exceptMap_map]
        have : ∀ ts : List Tok, Tok.leftBracket :: (emitList items ++ Tok.rightBracket :: ts)
            = emit (.Vector items) ++ ts := by
          intro ts
          simp [emit, List.append_assoc]
        simp only [this]
      | Map pairs =>
        rw [show prStr true (.Map pairs) = '\x7b' :: prJoinPairs true pairs ++ ['\x7d']
            from rfl]
        rw [show ('\x7b' :: prJoinPairs true pairs ++ ['\x7d']) ++ r
            = '\x7b' :: (prJoinPairs true pairs ++ ('\x7d' :: r)) by simp]
        rw [tokenize_lbrace]
        rw [ihP pairs (by simp [msize] at hsz; omega) (by simpa [wf] using hwf)
          ('\x7d' :: r) (by simp [boundaryB])]
        rw [tokenize_rbrace]
        rw [exceptMap_map, exceptMap_map]
        have : ∀ ts : List Tok, Tok.leftBrace :: (emitPairs pairs ++ Tok.rightBrace :: ts)
            = emit (.Map pairs) ++ ts := by
          intro ts
          simp [emit, List.append_assoc]
        simp only [this]
    refine ⟨stepE, ?_, ?_⟩
    · intro items hsz hwf r hb
      cases items with
      | nil => simp [prJoin, emitList, exceptMap_id]
      | cons i is =>
        cases is with
        | nil =>
          rw [show prJoin true [i] = prStr true i from rfl]
          rw [stepE i (by have := msize_pos i; simp [msizeList] at hsz; omega)
            (by simpa [wfList] using hwf) r hb]
          have : ∀ ts : List Tok, emit i ++ ts = emitList [i] ++ ts := by
            intro ts; simp [emitList]
          simp only [this]
        | cons j js =>
          rw [show prJoin true (i :: j :: js) = prStr true i ++ ' ' :: prJoin true (j :: js)
              from rfl]
          rw [show (prStr true i ++ ' ' :: prJoin true (j :: js)) ++ r
              = prStr true i ++ (' ' :: (prJoin true (j :: js) ++ r)) by simp]
          have hwf2 : wf i = true ∧ wfList (j :: js) = true := by
            simpa [wfList, Bool.and_eq_true] using hwf
          rw [stepE i (by have h1 := msize_pos j; simp [msizeList] at hsz; omega)
            hwf2.1 (' ' :: (prJoin true (j :: js) ++ r)) (by simp [boundaryB])]
          rw [tokenize_space]
          rw [ihL (j :: js) (by have := msize_pos i; simp [msizeList] at hsz ⊢; omega)
            hwf2.2 r hb]
          rw [exceptMap_map]
          have : ∀ ts : List Tok, emit i ++ (emitList (j :: js) ++ ts)
              = emitList (i :: j :: js) ++ ts := by
            intro ts; simp [emitList, List.append_assoc]
          simp only [this]
    · intro pairs hsz hwf r hb
      cases pairs with
      | nil => simp [prJoinPairs, emitPairs, exceptMap_id]
      | cons p ps =>
        obtain ⟨k, v⟩ := p
        have hwf2 : wf k = true ∧ wf v = true ∧ wfPairs ps = true := by
          simpa [wfPairs, Bool.and_eq_true, and_assoc] using hwf
        cases ps with
        | nil =>
          rw [show prJoinPairs true [(k, v)] = prStr true k ++ ' ' :: prStr true v from rfl]
          rw [show (prStr true k ++ ' ' :: prStr true v) ++ r
              = prStr true k ++ (' ' :: (prStr true v ++ r)) by simp]
          rw [stepE k (by have := msize_pos v; simp [msizePairs] at hsz; omega)
            hwf2.1 (' ' :: (prStr true v ++ r)) (by simp [boundaryB])]
          rw [tokenize_space]
          rw [stepE v (by have := msize_pos k; simp [msizePairs] at hsz; omega)
            hwf2.2.1 r hb]
          rw [exceptMap_map]
          have : ∀ ts : List Tok, emit k ++ (emit v ++ ts) = emitPairs [(k, v)] ++ ts := by
            intro ts; simp [emitPairs, List.append_assoc]
          simp only [this]
        | cons q qs =>
          rw [show prJoinPairs true ((k, v) :: q :: qs)
              = prStr true k ++ ' ' :: prStr true v ++ ' ' :: prJoinPairs true (q :: qs)
              from rfl]
          rw [show (prStr true k ++ ' ' :: prStr true v ++ ' ' :: prJoinPairs true (q :: qs)) ++ r
              = prStr true k ++ (' ' :: (prStr true v
                  ++ (' ' :: (prJoinPairs true (q :: qs) ++ r)))) by simp]
          have hszk : msize k ≤ N := by
            obtain ⟨qk, qv⟩ := q
            have h1 := msize_pos v
            have h2 := msize_pos qk
            simp [msizePairs] at hsz
            omega
          have hszv : msize v ≤ N := by
            obtain ⟨qk, qv⟩ := q
            have h1 := msize_pos k
            have h2 := msize_pos qk
            simp [msizePairs] at hsz
            omega
          have hszq : msizePairs (q :: qs) ≤ N := by
            have h1 := msize_pos k
            have h2 := msize_pos v
            simp [msizePairs] at hsz ⊢
            omega
          rw [stepE k (Nat.le_succ_of_le hszk) hwf2.1 _ (by simp [boundaryB])]
          rw [tokenize_space]
          rw [stepE v (Nat.le_succ_of_le hszv) hwf2.2.1 _ (by simp [boundaryB])]
          rw [tokenize_space]
          rw [ihP (q :: qs) hszq hwf2.2.2 r hb]
          rw [exceptMap_map, exceptMap_map]
          have : ∀ ts : List Tok, emit k ++ (emit v ++ (emitPairs (q :: qs) ++ ts))
              = emitPairs ((k, v) :: q :: qs) ++ ts := by
            intro ts; simp [emitPairs, List.append_assoc]
          simp only [this]

end Mal

namespace Mal

/-- Every well-formed value's token emission starts with a token that is
neither a closing delimiter nor a reader-macro token. -/
theorem emit_head (e : MalType) (hwf : wf e = true) :
    ∃ t ts, emit e = t :: ts ∧ ¬ t = Tok.rightParen ∧ ¬ t = Tok.rightBracket ∧
      ¬ t = Tok.rightBrace ∧ ¬ t = Tok.quoteTok ∧ ¬ t = Tok.quasiquoteTok ∧
      ¬ t = Tok.unquoteTok ∧ ¬ t = Tok.spliceUnquote ∧ ¬ t = Tok.derefTok ∧
      ¬ t = Tok.metaTok := by
  cases e with
  | Nil => simp [wf] at hwf
  | Bool b => simp [wf] at hwf
  | Function ps b id m => simp [wf] at hwf
  | Number n => exact ⟨_, _, rfl, by simp, by simp, by simp, by simp, by simp, by simp,
      by simp, by simp, by simp⟩
  | Symbol s => exact ⟨_, _, rfl, by simp, by simp, by simp, by simp, by simp, by simp,
      by simp, by simp, by simp⟩
  | Str s => exact ⟨_, _, rfl, by simp, by simp, by simp, by simp, by simp, by simp,
      by simp, by simp, by simp⟩
  | Keyword k => exact ⟨_, _, rfl, by simp, by simp, by simp, by simp, by simp, by simp,
      by simp, by simp, by simp⟩
  | List items => exact ⟨_, _, rfl, by simp, by simp, by simp, by simp, by simp, by simp,
      by simp, by simp, by simp⟩
  | Vector items => exact ⟨_, _, rfl, by simp, by simp, by simp, by simp, by simp, by simp,
      by simp, by simp, by simp⟩
  | Map pairs => exact ⟨_, _, rfl, by simp, by simp, by simp, by simp, by simp, by simp,
      by simp, by simp, by simp⟩

theorem emit_len_pos (e : MalType) (hwf : wf e = true) : 1 ≤ (emit e).length := by
  obtain ⟨t, ts, hts, _⟩ := emit_head e hwf
  simp [hts]

theorem readForm_emit : ∀ N : Nat,
    (∀ e, msize e ≤ N → wf e = true → ∀ rest F, 2 * (emit e).length ≤ F →
      readFormF F (emit e ++ rest) = .ok (e, rest)) ∧
    (∀ items, msizeList items ≤ N → wfList items = true → ∀ acc rest F,
      2 * (emitList items).length + 1 ≤ F →
      readListF F acc (emitList items ++ .rightParen :: rest) = .ok (.List (acc ++ items), rest)) ∧
    (∀ items, msizeList items ≤ N → wfList items = true → ∀ acc rest F,
      2 * (emitList items).length + 1 ≤ F →
      readVectorF F acc (emitList items ++ .rightBracket :: rest)
        = .ok (.Vector (acc ++ items), rest)) ∧
    (∀ pairs, msizePairs pairs ≤ N → wfPairs pairs = true → ∀ acc rest F,
      2 * (emitPairs pairs).length + 1 ≤ F →
      readMapF F acc (emitPairs pairs ++ .rightBrace :: rest)
        = .ok (.Map (acc ++ pairs), rest)) := by
  intro N
  induction N with
  | zero =>
    refine ⟨?_, ?_, ?_, ?_⟩
    · intro e hsz
      have := msize_pos e
      omega
    · intro items hsz hwf acc rest F hF
      have hnil : items = [] := by
        cases items with
        | nil => rfl
        | cons x xs => have := msize_pos x; simp [msizeList] at hsz; omega
      subst hnil
      obtain ⟨G, rfl⟩ : ∃ g, F = Nat.succ g := ⟨F - 1, by omega⟩
      simp [readListF, emitList]
    · intro items hsz hwf acc rest F hF
      have hnil : items = [] := by
        cases items with
        | nil => rfl
        | cons x xs => have := msize_pos x; simp [msizeList] at hsz; omega
      subst hnil
      obtain ⟨G, rfl⟩ : ∃ g, F = Nat.succ g := ⟨F - 1, by omega⟩
      simp [readVectorF, emitList]
    · intro pairs hsz hwf acc rest F hF
      have hnil : pairs = [] := by
        cases pairs with
        | nil => rfl
        | cons p ps =>
          obtain ⟨k, v⟩ := p
          have := msize_pos k
          simp [msizePairs] at hsz
          omega
      subst hnil
      obtain ⟨G, rfl⟩ : ∃ g, F = Nat.succ g := ⟨F - 1, by omega⟩
      simp [readMapF, emitPairs]
  | succ N ih =>
    obtain ⟨ihE, ihL, ihV, ihP⟩ := ih
    have stepE : ∀ e, msize e ≤ N + 1 → wf e = true → ∀ rest F, 2 * (emit e).length ≤ F →
        readFormF F (emit e ++ rest) = .ok (e, rest) := by
      intro e hsz hwf rest F hF
      cases e with
      | Nil => simp [wf] at hwf
      | Bool b => simp [wf] at hwf
      | Function ps b id m => simp [wf] at hwf
      | Number n =>
        obtain ⟨G, rfl⟩ : ∃ g, F = Nat.succ g := ⟨F - 1, by simp [emit] at hF; omega⟩
        rfl
      | Symbol s =>
        obtain ⟨G, rfl⟩ : ∃ g, F = Nat.succ g := ⟨F - 1, by simp [emit] at hF; omega⟩
        rfl
      | Str s =>
        obtain ⟨G, rfl⟩ : ∃ g, F = Nat.succ g := ⟨F - 1, by simp [emit] at hF; omega⟩
        rfl
      | Keyword k =>
        obtain ⟨G, rfl⟩ : ∃ g, F = Nat.succ g := ⟨F - 1, by simp [emit] at hF; omega⟩
        rfl
      | List items =>
        obtain ⟨G, rfl⟩ : ∃ g, F = Nat.succ g := ⟨F - 1, by simp [emit] at hF; omega⟩
        have hfuel : 2 * (emitList items).length + 1 ≤ G := by simp [emit] at hF; omega
        have hL := ihL items (by simp [msize] at hsz; omega) (by simpa [wf] using hwf)
          [] rest G hfuel
        rw [show emit (.List items) ++ rest
            = Tok.leftParen :: (emitList items ++ Tok.rightParen :: rest) by simp [emit]]
        rw [show readFormF (Nat.succ G)
              (Tok.leftParen :: (emitList items ++ Tok.rightParen :: rest))
            = readListF G [] (emitList items ++ Tok.rightParen :: rest) from rfl]
        rw [hL]
        simp
      | Vector items =>
        obtain ⟨G, rfl⟩ : ∃ g, F = Nat.succ g := ⟨F - 1, by simp [emit] at hF; omega⟩
        have hfuel : 2 * (emitList items).length + 1 ≤ G := by simp [emit] at hF; omega
        have hV := ihV items (by simp [msize] at hsz; omega) (by simpa [wf] using hwf)
          [] rest G hfuel
        rw [show emit (.Vector items) ++ rest
            = Tok.leftBracket :: (emitList items ++ Tok.rightBracket :: rest) by simp [emit]]
        rw [show readFormF (Nat.succ G)
              (Tok.leftBracket :: (emitList items ++ Tok.rightBracket :: rest))
            = readVectorF G [] (emitList items ++ Tok.rightBracket :: rest) from rfl]
        rw [hV]
        simp
      | Map pairs =>
        obtain ⟨G, rfl⟩ : ∃ g, F = Nat.succ g := ⟨F - 1, by simp [emit] at hF; omega⟩
        have hfuel : 2 * (emitPairs pairs).length + 1 ≤ G := by simp [emit] at hF; omega
        have hP := ihP pairs (by simp [msize] at hsz; omega) (by simpa [wf] using hwf)
          [] rest G hfuel
        rw [show emit (.Map pairs) ++ rest
            = Tok.leftBrace :: (emitPairs pairs ++ Tok.rightBrace :: rest) by simp [emit]]
        rw [show readFormF (Nat.succ G)
              (Tok.leftBrace :: (emitPairs pairs ++ Tok.rightBrace :: rest))
            = readMapF G [] (emitPairs pairs ++ Tok.rightBrace :: rest) from rfl]
        rw [hP]
        simp
    refine ⟨stepE, ?_, ?_, ?_⟩
    · intro items hsz hwf acc rest F hF
      cases items with
      | nil =>
        obtain ⟨G, rfl⟩ : ∃ g, F = Nat.succ g := ⟨F - 1, by omega⟩
        simp [readListF, emitList]
      | cons i is =>
        have hwf2 : wf i = true ∧ wfList is = true := by
          simpa [wfList, Bool.and_eq_true] using hwf
        obtain ⟨G, rfl⟩ : ∃ g, F = Nat.succ g := ⟨F - 1, by omega⟩
        obtain ⟨t, ts, hts, ht1, ht2, ht3, ht4, ht5, ht6, ht7, ht8, ht9⟩ :=
          emit_head i hwf2.1
        have hei : 1 ≤ (emit i).length := emit_len_pos i hwf2.1
        have hlen : (emitList (i :: is)).length
            = (emit i).length + (emitList is).length := by simp [emitList]
        have h1 : readFormF G (t :: (ts ++ (emitList is ++ Tok.rightParen :: rest)))
            = .ok (i, emitList is ++ Tok.rightParen :: rest) := by
          rw [show t :: (ts ++ (emitList is ++ Tok.rightParen :: rest))
              = emit i ++ (emitList is ++ Tok.rightParen :: rest) by simp [hts]]
          exact stepE i (by have := msize_pos i; simp [msizeList] at hsz; omega) hwf2.1 _ G
            (by rw [hlen] at hF; omega)
        have h2 : readListF G (acc ++ [i]) (emitList is ++ Tok.rightParen :: rest)
            = .ok (.List ((acc ++ [i]) ++ is), rest) :=
          ihL is (by have := msize_pos i; simp [msizeList] at hsz; omega) hwf2.2
            (acc ++ [i]) rest G (by rw [hlen] at hF; omega)
        rw [show emitList (i :: is) ++ Tok.rightParen :: rest
            = t :: (ts ++ (emitList is ++ Tok.rightParen :: rest)) by simp [emitList, hts]]
        rw [readListF.eq_4 acc (t :: (ts ++ (emitList is ++ Tok.rightParen :: rest))) G
          (by intro r he; injection he with hh _; exact ht1 hh)
          (List.cons_ne_nil _ _)]
        simp only [h1]
        rw [h2]
        simp
    · intro items hsz hwf acc rest F hF
      cases items with
      | nil =>
        obtain ⟨G, rfl⟩ : ∃ g, F = Nat.succ g := ⟨F - 1, by omega⟩
        simp [readVectorF, emitList]
      | cons i is =>
        have hwf2 : wf i = true ∧ wfList is = true := by
          simpa [wfList, Bool.and_eq_true] using hwf
        obtain ⟨G, rfl⟩ : ∃ g, F = Nat.succ g := ⟨F - 1, by omega⟩
        obtain ⟨t, ts, hts, ht1, ht2, ht3, ht4, ht5, ht6, ht7, ht8, ht9⟩ :=
          emit_head i hwf2.1
        have hei : 1 ≤ (emit i).length := emit_len_pos i hwf2.1
        have hlen : (emitList (i :: is)).length
            = (emit i).length + (emitList is).length := by simp [emitList]
        have h1 : readFormF G (t :: (ts ++ (emitList is ++ Tok.rightBracket :: rest)))
            = .ok (i, emitList is ++ Tok.rightBracket :: rest) := by
          rw [show t :: (ts ++ (emitList is ++ Tok.rightBracket :: rest))
              = emit i ++ (emitList is ++ Tok.rightBracket :: rest) by simp [hts]]
          exact stepE i (by have := msize_pos i; simp [msizeList] at hsz; omega) hwf2.1 _ G
            (by rw [hlen] at hF; omega)
        have h2 : readVectorF G (acc ++ [i]) (emitList is ++ Tok.rightBracket :: rest)
            = .ok (.Vector ((acc ++ [i]) ++ is), rest) :=
          ihV is (by have := msize_pos i; simp [msizeList] at hsz; omega) hwf2.2
            (acc ++ [i]) rest G (by rw [hlen] at hF; omega)
        rw [show emitList (i :: is) ++ Tok.rightBracket :: rest
            = t :: (ts ++ (emitList is ++ Tok.rightBracket :: rest)) by simp [emitList, hts]]
        rw [readVectorF.eq_4 acc (t :: (ts ++ (emitList is ++ Tok.rightBracket :: rest))) G
          (by intro r he; injection he with hh _; exact ht2 hh)
          (List.cons_ne_nil _ _)]
        simp only [h1]
        rw [h2]
        simp
    · intro pairs hsz hwf acc rest F hF
      cases pairs with
      | nil =>
        obtain ⟨G, rfl⟩ : ∃ g, F = Nat.succ g := ⟨F - 1, by omega⟩
        simp [readMapF, emitPairs]
      | cons p ps =>
        obtain ⟨k, v⟩ := p
        have hwf2 : wf k = true ∧ wf v = true ∧ wfPairs ps = true := by
          simpa [wfPairs, Bool.and_eq_true, and_assoc] using hwf
        obtain ⟨G, rfl⟩ : ∃ g, F = Nat.succ g := ⟨F - 1, by omega⟩
        obtain ⟨t, ts, hts, ht1, ht2, ht3, ht4, ht5, ht6, ht7, ht8, ht9⟩ :=
          emit_head k hwf2.1
        obtain ⟨t2, ts2, hts2, _⟩ := emit_head v hwf2.2.1
        have hek : 1 ≤ (emit k).length := emit_len_pos k hwf2.1
        have hev : 1 ≤ (emit v).length := emit_len_pos v hwf2.2.1
        have hlen : (emitPairs ((k, v) :: ps)).length
            = (emit k).length + (emit v).length + (emitPairs ps).length := by
          simp [emitPairs]
          omega
        have hszk : msize k ≤ N + 1 := by
          have := msize_pos v
          simp [msizePairs] at hsz
          omega
        have hszv : msize v ≤ N + 1 := by
          have := msize_pos k
          simp [msizePairs] at hsz
          omega
        have hszp : msizePairs ps ≤ N := by
          have h1 := msize_pos k
          have h2 := msize_pos v
          simp [msizePairs] at hsz
          omega
        have h2 : readFormF G
            (t2 :: (ts2 ++ (emitPairs ps ++ Tok.rightBrace :: rest)))
            = .ok (v, emitPairs ps ++ Tok.rightBrace :: rest) := by
          rw [show t2 :: (ts2 ++ (emitPairs ps ++ Tok.rightBrace :: rest))
              = emit v ++ (emitPairs ps ++ Tok.rightBrace :: rest) by simp [hts2]]
          exact stepE v hszv hwf2.2.1 _ G (by rw [hlen] at hF; omega)
        have h1 : readFormF G
            (t :: (ts ++ (t2 :: (ts2 ++ (emitPairs ps ++ Tok.rightBrace :: rest)))))
            = .ok (k, t2 :: (ts2 ++ (emitPairs ps ++ Tok.rightBrace :: rest))) := by
          rw [show t :: (ts ++ (t2 :: (ts2 ++ (emitPairs ps ++ Tok.rightBrace :: rest))))
              = emit k ++ (t2 :: (ts2 ++ (emitPairs ps ++ Tok.rightBrace :: rest))) by
            simp [hts]]
          rw [show t2 :: (ts2 ++ (emitPairs ps ++ Tok.rightBrace :: rest))
              = emit v ++ (emitPairs ps ++ Tok.rightBrace :: rest) by simp [hts2]]
          exact stepE k hszk hwf2.1 _ G (by rw [hlen] at hF; omega)
        have h3 : readMapF G (acc ++ [(k, v)]) (emitPairs ps ++ Tok.rightBrace :: rest)
            = .ok (.Map ((acc ++ [(k, v)]) ++ ps), rest) :=
          ihP ps hszp hwf2.2.2 (acc ++ [(k, v)]) rest G (by rw [hlen] at hF; omega)
        rw [show emitPairs ((k, v) :: ps) ++ Tok.rightBrace :: rest
            = t :: (ts ++ (t2 :: (ts2 ++ (emitPairs ps ++ Tok.rightBrace :: rest)))) by
          simp [emitPairs, hts, hts2]]
        rw [readMapF.eq_4 acc
          (t :: (ts ++ (t2 :: (ts2 ++ (emitPairs ps ++ Tok.rightBrace :: rest))))) G
          (by intro r he; injection he with hh _; exact ht3 hh)
          (List.cons_ne_nil _ _)]
        simp only [h1]
        simp only [h2]
        rw [h3]
        simp

end Mal

namespace Mal


theorem exceptMap_ok {α β ε : Type} (g : α → β) (e : Except ε α) (b : β) :
    e.map g = .ok b ↔ ∃ a, e = .ok a ∧ g a = b := by
  cases e <;> simp [Except.map]

theorem all_takeWhile {α : Type} (p : α → Bool) (l : List α) :
    (l.takeWhile p).all p = true := by
  induction l with
  | nil => rfl
  | cons a as ih => cases h : p a <;> simp [List.takeWhile_cons, h, ih]

theorem digitNext_takeWhile (p : Char → Bool) (l : List Char)
    (h : digitNext (l.takeWhile p) = true) : digitNext l = true := by
  cases l with
  | nil => simpa [List.takeWhile] using h
  | cons a as =>
    cases hp : p a with
    | true => simpa [List.takeWhile_cons, hp, digitNext] using h
    | false => simp [List.takeWhile_cons, hp, digitNext] at h

theorem tokenizeF_twf : ∀ (fuel : Nat) (cs : List Char), ∀ ts : List Tok,
    tokenizeF fuel cs = .ok ts → ts.all twf = true := by
  intro fuel cs
  induction fuel, cs using tokenizeF.induct with
  | case1 x => intro ts heq; simp [tokenizeF] at heq
  | case2 t ht =>
    intro ts heq
    cases t with
    | zero => simp [tokenizeF] at heq
    | succ g =>
      simp only [tokenizeF] at heq
      injection heq with heq2
      subst heq2
      rfl
  | case3 f cs ih =>
    intro ts heq
    simp only [tokenizeF] at heq
    exact ih ts heq
  | case4 f cs s rest hrs ih =>
    intro ts heq
    simp only [tokenizeF, hrs] at heq
    obtain ⟨ts2, hts2, rfl⟩ := (exceptMap_ok _ _ _).mp heq
    simp [List.all_cons, twf, ih ts2 hts2]
  | case5 f cs e hrs =>
    intro ts heq
    simp [tokenizeF, hrs] at heq
  | case6 f cs ih =>
    intro ts heq
    simp only [tokenizeF] at heq
    obtain ⟨ts2, hts2, rfl⟩ := (exceptMap_ok _ _ _).mp heq
    simp [List.all_cons, twf, ih ts2 hts2]
  | case7 f cs ih =>
    intro ts heq
    simp only [tokenizeF] at heq
    obtain ⟨ts2, hts2, rfl⟩ := (exceptMap_ok _ _ _).mp heq
    simp [List.all_cons, twf, ih ts2 hts2]
  | case8 f cs ih =>
    intro ts heq
    simp only [tokenizeF] at heq
    obtain ⟨ts2, hts2, rfl⟩ := (exceptMap_ok _ _ _).mp heq
    simp [List.all_cons, twf, ih ts2 hts2]
  | case9 f cs ih =>
    intro ts heq
    simp only [tokenizeF] at heq
    obtain ⟨ts2, hts2, rfl⟩ := (exceptMap_ok _ _ _).mp heq
    simp [List.all_cons, twf, ih ts2 hts2]
  | case10 f cs ih =>
    intro ts heq
    simp only [tokenizeF] at heq
    obtain ⟨ts2, hts2, rfl⟩ := (exceptMap_ok _ _ _).mp heq
    simp [List.all_cons, twf, ih ts2 hts2]
  | case11 f cs ih =>
    intro ts heq
    simp only [tokenizeF] at heq
    obtain ⟨ts2, hts2, rfl⟩ := (exceptMap_ok _ _ _).mp heq
    simp [List.all_cons, twf, ih ts2 hts2]
  | case12 f cs ih =>
    intro ts heq
    simp only [tokenizeF] at heq
    obtain ⟨ts2, hts2, rfl⟩ := (exceptMap_ok _ _ _).mp heq
    simp [List.all_cons, twf, ih ts2 hts2]
  | case13 f cs ih =>
    intro ts heq
    simp only [tokenizeF] at heq
    obtain ⟨ts2, hts2, rfl⟩ := (exceptMap_ok _ _ _).mp heq
    simp [List.all_cons, twf, ih ts2 hts2]
  | case14 f cs ih =>
    intro ts heq
    simp only [tokenizeF] at heq
    obtain ⟨ts2, hts2, rfl⟩ := (exceptMap_ok _ _ _).mp heq
    simp [List.all_cons, twf, ih ts2 hts2]
  | case15 f cs hside ih =>
    intro ts heq
    rw [tokenizeF.eq_14 f cs hside] at heq
    obtain ⟨ts2, hts2, rfl⟩ := (exceptMap_ok _ _ _).mp heq
    simp [List.all_cons, twf, ih ts2 hts2]
  | case16 f cs ih =>
    intro ts heq
    simp only [tokenizeF] at heq
    obtain ⟨ts2, hts2, rfl⟩ := (exceptMap_ok _ _ _).mp heq
    simp [List.all_cons, twf, ih ts2 hts2]
  | case17 f cs ih =>
    intro ts heq
    simp only [tokenizeF] at heq
    obtain ⟨ts2, hts2, rfl⟩ := (exceptMap_ok _ _ _).mp heq
    simp [List.all_cons, twf, ih ts2 hts2]
  | case18 f cs ih =>
    intro ts heq
    simp only [tokenizeF] at heq
    obtain ⟨ts2, hts2, rfl⟩ := (exceptMap_ok _ _ _).mp heq
    have hkw : twf (.kw (String.mk (cs.takeWhile isKeywordCh))) = true := by
      show wfKeywordB (String.mk (cs.takeWhile isKeywordCh)) = true
      show (cs.takeWhile isKeywordCh).all isKeywordCh = true
      exact all_takeWhile _ _
    simp [List.all_cons, hkw, ih ts2 hts2]
  | case19 f cs ih =>
    intro ts heq
    simp only [tokenizeF] at heq
    exact ih ts heq
  | case20 f c cs h1 h2 h3 h4 h5 h6 h7 h8 h9 h10 h11 h12 h13 h14 h15 h16 hws ih =>
    intro ts heq
    rw [tokenizeF.eq_19 f c cs h1 h2 h3 h4 h5 h6 h7 h8 h9 h10 h11 h12 h13 h14 h15 h16] at heq
    simp only [if_pos hws] at heq
    exact ih ts heq
  | case21 f c cs h1 h2 h3 h4 h5 h6 h7 h8 h9 h10 h11 h12 h13 h14 h15 h16 hws hnum cs1 digits rest v hin ih =>
    intro ts heq
    rw [tokenizeF.eq_19 f c cs h1 h2 h3 h4 h5 h6 h7 h8 h9 h10 h11 h12 h13 h14 h15 h16] at heq
    simp only [if_neg hws, if_pos hnum, if_pos hin] at heq
    obtain ⟨ts2, hts2, rfl⟩ := (exceptMap_ok _ _ _).mp heq
    simp [List.all_cons, twf, hin, ih ts2 hts2]
  | case22 f c cs h1 h2 h3 h4 h5 h6 h7 h8 h9 h10 h11 h12 h13 h14 h15 h16 hws hnum cs1 digits rest v hin ih =>
    intro ts heq
    rw [tokenizeF.eq_19 f c cs h1 h2 h3 h4 h5 h6 h7 h8 h9 h10 h11 h12 h13 h14 h15 h16] at heq
    simp only [if_neg hws, if_pos hnum, if_neg hin] at heq
    exact ih ts heq
  | case23 f c cs h1 h2 h3 h4 h5 h6 h7 h8 h9 h10 h11 h12 h13 h14 h15 h16 hws hnum hsym ih =>
    intro ts heq
    rw [tokenizeF.eq_19 f c cs h1 h2 h3 h4 h5 h6 h7 h8 h9 h10 h11 h12 h13 h14 h15 h16] at heq
    simp only [if_neg hws, if_neg hnum, if_pos hsym] at heq
    obtain ⟨ts2, hts2, rfl⟩ := (exceptMap_ok _ _ _).mp heq
    have hc : isSymCh c = true := isSymCh_of_start hsym
    have htw : (c :: cs).takeWhile isSymCh = c :: cs.takeWhile isSymCh :=
      List.takeWhile_cons_of_pos hc
    have hsymwf : twf (.sym (String.mk ((c :: cs).takeWhile isSymCh))) = true := by
      rw [htw]
      show wfSymbolB (String.mk (c :: cs.takeWhile isSymCh)) = true
      show (isSymStartCh c && (c :: cs.takeWhile isSymCh).all isSymCh
          && !(decide (c = '-') && digitNext (cs.takeWhile isSymCh))) = true
      have hdn : (decide (c = '-') && digitNext (cs.takeWhile isSymCh)) = false := by
        by_cases hcm : c = '-'
        · subst hcm
          rw [show (decide (('-' : Char) = '-')) = true from by decide, Bool.true_and]
          cases hdt : digitNext (List.takeWhile isSymCh cs) with
          | false => rfl
          | true =>
            exact absurd (digitNext_takeWhile isSymCh cs hdt) (by simp at hnum; simp [hnum.2])
        · simp [hcm]
      simp [hsym, hc, all_takeWhile, hdn]
    simp [List.all_cons, hsymwf, ih ts2 hts2]
  | case24 f c cs h1 h2 h3 h4 h5 h6 h7 h8 h9 h10 h11 h12 h13 h14 h15 h16 hws hnum hsym ih =>
    intro ts heq
    rw [tokenizeF.eq_19 f c cs h1 h2 h3 h4 h5 h6 h7 h8 h9 h10 h11 h12 h13 h14 h15 h16] at heq
    simp only [if_neg hws, if_neg hnum, if_neg hsym] at heq
    exact ih ts heq

theorem tokenize_twf (cs : List Char) (ts : List Tok) (h : tokenize cs = .ok ts) :
    ts.all twf = true :=
  tokenizeF_twf (cs.length + 1) cs ts h

end Mal

namespace Mal

theorem wfList_append (l1 l2 : List MalType) :
    wfList (l1 ++ l2) = (wfList l1 && wfList l2) := by
  induction l1 with
  | nil => simp [wfList]
  | cons x xs ih => simp [wfList, ih, Bool.and_assoc]

theorem wfPairs_append (l1 l2 : List (MalType × MalType)) :
    wfPairs (l1 ++ l2) = (wfPairs l1 && wfPairs l2) := by
  induction l1 with
  | nil => simp [wfPairs]
  | cons p ps ih =>
    obtain ⟨k, v⟩ := p
    simp [wfPairs, ih, Bool.and_assoc]

theorem readF_wf : ∀ F : Nat,
    (∀ ts e r, ts.all twf = true → readFormF F ts = .ok (e, r) →
      wf e = true ∧ r.all twf = true) ∧
    (∀ acc ts e r, wfList acc = true → ts.all twf = true → readListF F acc ts = .ok (e, r) →
      wf e = true ∧ r.all twf = true) ∧
    (∀ acc ts e r, wfList acc = true → ts.all twf = true → readVectorF F acc ts = .ok (e, r) →
      wf e = true ∧ r.all twf = true) ∧
    (∀ acc ts e r, wfPairs acc = true → ts.all twf = true → readMapF F acc ts = .ok (e, r) →
      wf e = true ∧ r.all twf = true) := by
  intro F
  induction F with
  | zero =>
    refine ⟨?_, ?_, ?_, ?_⟩
    · intro ts e r hts heq; simp [readFormF] at heq
    · intro acc ts e r hacc hts heq; simp [readListF] at heq
    · intro acc ts e r hacc hts heq; simp [readVectorF] at heq
    · intro acc ts e r hacc hts heq; simp [readMapF] at heq
  | succ f ih =>
    obtain ⟨ihE, ihL, ihV, ihP⟩ := ih
    have stepF : ∀ ts e r, ts.all twf = true → readFormF (f + 1) ts = .ok (e, r) →
        wf e = true ∧ r.all twf = true := by
      intro ts e r hts heq
      cases ts with
      | nil => simp [readFormF] at heq
      | cons t rest =>
        have hts2 : twf t = true ∧ rest.all twf = true := by
          rw [List.all_cons, Bool.and_eq_true] at hts
          exact hts
        have hrest : rest.all twf = true := hts2.2
        have htok : twf t = true := hts2.1
        cases t with
        | quoteTok =>
          have heq2 : (readFormF f rest).map
              (fun p => (MalType.List [MalType.Symbol "quote", p.1], p.2))
              = Except.ok (e, r) := heq
          obtain ⟨p, hp, hpe⟩ := (exceptMap_ok _ _ _).mp heq2
          obtain ⟨p1, p2⟩ := p
          simp only [Prod.mk.injEq] at hpe
          obtain ⟨rfl, rfl⟩ := hpe
          obtain ⟨hw, hr⟩ := ihE rest p1 p2 hrest hp
          refine ⟨?_, hr⟩
          show (wfSymbolB "quote" && (wf p1 && true)) = true
          simp [hw]
          rfl
        | quasiquoteTok =>
          have heq2 : (readFormF f rest).map
              (fun p => (MalType.List [MalType.Symbol "quasiquote", p.1], p.2))
              = Except.ok (e, r) := heq
          obtain ⟨p, hp, hpe⟩ := (exceptMap_ok _ _ _).mp heq2
          obtain ⟨p1, p2⟩ := p
          simp only [Prod.mk.injEq] at hpe
          obtain ⟨rfl, rfl⟩ := hpe
          obtain ⟨hw, hr⟩ := ihE rest p1 p2 hrest hp
          refine ⟨?_, hr⟩
          show (wfSymbolB "quasiquote" && (wf p1 && true)) = true
          simp [hw]
          rfl
        | unquoteTok =>
          have heq2 : (readFormF f rest).map
              (fun p => (MalType.List [MalType.Symbol "unquote", p.1], p.2))
              = Except.ok (e, r) := heq
          obtain ⟨p, hp, hpe⟩ := (exceptMap_ok _ _ _).mp heq2
          obtain ⟨p1, p2⟩ := p
          simp only [Prod.mk.injEq] at hpe
          obtain ⟨rfl, rfl⟩ := hpe
          obtain ⟨hw, hr⟩ := ihE rest p1 p2 hrest hp
          refine ⟨?_, hr⟩
          show (wfSymbolB "unquote" && (wf p1 && true)) = true
          simp [hw]
          rfl
        | spliceUnquote =>
          have heq2 : (readFormF f rest).map
              (fun p => (MalType.List [MalType.Symbol "splice-unquote", p.1], p.2))
              = Except.ok (e, r) := heq
          obtain ⟨p, hp, hpe⟩ := (exceptMap_ok _ _ _).mp heq2
          obtain ⟨p1, p2⟩ := p
          simp only [Prod.mk.injEq] at hpe
          obtain ⟨rfl, rfl⟩ := hpe
          obtain ⟨hw, hr⟩ := ihE rest p1 p2 hrest hp
          refine ⟨?_, hr⟩
          show (wfSymbolB "splice-unquote" && (wf p1 && true)) = true
          simp [hw]
          rfl
        | derefTok =>
          have heq2 : (readFormF f rest).map
              (fun p => (MalType.List [MalType.Symbol "deref", p.1], p.2))
              = Except.ok (e, r) := heq
          obtain ⟨p, hp, hpe⟩ := (exceptMap_ok _ _ _).mp heq2
          obtain ⟨p1, p2⟩ := p
          simp only [Prod.mk.injEq] at hpe
          obtain ⟨rfl, rfl⟩ := hpe
          obtain ⟨hw, hr⟩ := ihE rest p1 p2 hrest hp
          refine ⟨?_, hr⟩
          show (wfSymbolB "deref" && (wf p1 && true)) = true
          simp [hw]
          rfl
        | metaTok =>
          have heq2 : (match readFormF f rest with
              | Except.error er => Except.error er
              | Except.ok (m, r1) =>
                match readFormF f r1 with
                | Except.error er => Except.error er
                | Except.ok (x, r2) =>
                  Except.ok (MalType.List [MalType.Symbol "with-meta", x, m], r2))
              = Except.ok (e, r) := heq
          cases hf : readFormF f rest with
          | error er => rw [hf] at heq2; simp at heq2
          | ok p =>
            obtain ⟨m, r1⟩ := p
            rw [hf] at heq2
            obtain ⟨hwm, hr1⟩ := ihE rest m r1 hrest hf
            have heq3 : (match readFormF f r1 with
                | Except.error er => Except.error er
                | Except.ok (x, r2) =>
                  Except.ok (MalType.List [MalType.Symbol "with-meta", x, m], r2))
                = Except.ok (e, r) := heq2
            cases hf2 : readFormF f r1 with
            | error er => rw [hf2] at heq3; simp at heq3
            | ok q =>
              obtain ⟨x, r2⟩ := q
              rw [hf2] at heq3
              simp only [Except.ok.injEq, Prod.mk.injEq] at heq3
              obtain ⟨rfl, rfl⟩ := heq3
              obtain ⟨hwx, hr2⟩ := ihE r1 x r2 hr1 hf2
              refine ⟨?_, hr2⟩
              show (wfSymbolB "with-meta" && (wf x && (wf m && true))) = true
              simp [hwx, hwm]
              rfl
        | leftParen =>
          have heq2 : readListF f [] rest = Except.ok (e, r) := heq
          exact ihL [] rest e r rfl hrest heq2
        | leftBracket =>
          have heq2 : readVectorF f [] rest = Except.ok (e, r) := heq
          exact ihV [] rest e r rfl hrest heq2
        | leftBrace =>
          have heq2 : readMapF f [] rest = Except.ok (e, r) := heq
          exact ihP [] rest e r rfl hrest heq2
        | rightParen =>
          have heq2 : (Except.error "Invalid atom" : Except String MalType).map
              (fun a => (a, rest)) = Except.ok (e, r) := heq
          simp [Except.map] at heq2
        | rightBracket =>
          have heq2 : (Except.error "Invalid atom" : Except String MalType).map
              (fun a => (a, rest)) = Except.ok (e, r) := heq
          simp [Except.map] at heq2
        | rightBrace =>
          have heq2 : (Except.error "Invalid atom" : Except String MalType).map
              (fun a => (a, rest)) = Except.ok (e, r) := heq
          simp [Except.map] at heq2
        | num n =>
          have heq2 : Except.ok (MalType.Number n, rest) = Except.ok (e, r) := heq
          simp only [Except.ok.injEq, Prod.mk.injEq] at heq2
          obtain ⟨rfl, rfl⟩ := heq2
          exact ⟨htok, hrest⟩
        | sym s =>
          have heq2 : Except.ok (MalType.Symbol s, rest) = Except.ok (e, r) := heq
          simp only [Except.ok.injEq, Prod.mk.injEq] at heq2
          obtain ⟨rfl, rfl⟩ := heq2
          exact ⟨htok, hrest⟩
        | strTok s =>
          have heq2 : Except.ok (MalType.Str s, rest) = Except.ok (e, r) := heq
          simp only [Except.ok.injEq, Prod.mk.injEq] at heq2
          obtain ⟨rfl, rfl⟩ := heq2
          exact ⟨rfl, hrest⟩
        | kw s =>
          have heq2 : Except.ok (MalType.Keyword s, rest) = Except.ok (e, r) := heq
          simp only [Except.ok.injEq, Prod.mk.injEq] at heq2
          obtain ⟨rfl, rfl⟩ := heq2
          exact ⟨htok, hrest⟩
    refine ⟨stepF, ?_, ?_, ?_⟩
    · intro acc ts e r hacc hts heq
      cases ts with
      | nil => simp [readListF] at heq
      | cons t rest =>
        have hrest : rest.all twf = true := by
          rw [List.all_cons, Bool.and_eq_true] at hts
          exact hts.2
        by_cases hrp : t = Tok.rightParen
        · subst hrp
          have heq2 : Except.ok (MalType.List acc, rest) = Except.ok (e, r) := heq
          simp only [Except.ok.injEq, Prod.mk.injEq] at heq2
          obtain ⟨rfl, rfl⟩ := heq2
          exact ⟨by simpa [wf] using hacc, hrest⟩
        · rw [readListF.eq_4 acc (t :: rest) f
            (by intro r2 he; injection he with hh _; exact hrp hh)
            (List.cons_ne_nil _ _)] at heq
          cases hf : readFormF f (t :: rest) with
          | error er => rw [hf] at heq; simp at heq
          | ok p =>
            obtain ⟨x, r1⟩ := p
            rw [hf] at heq
            have heq2 : readListF f (acc ++ [x]) r1 = Except.ok (e, r) := heq
            obtain ⟨hwx, hr1⟩ := ihE (t :: rest) x r1 hts hf
            exact ihL (acc ++ [x]) r1 e r
              (by simp [wfList_append, hacc, wfList, hwx]) hr1 heq2
    · intro acc ts e r hacc hts heq
      cases ts with
      | nil => simp [readVectorF] at heq
      | cons t rest =>
        have hrest : rest.all twf = true := by
          rw [List.all_cons, Bool.and_eq_true] at hts
          exact hts.2
        by_cases hrp : t = Tok.rightBracket
        · subst hrp
          have heq2 : Except.ok (MalType.Vector acc, rest) = Except.ok (e, r) := heq
          simp only [Except.ok.injEq, Prod.mk.injEq] at heq2
          obtain ⟨rfl, rfl⟩ := heq2
          exact ⟨by simpa [wf] using hacc, hrest⟩
        · rw [readVectorF.eq_4 acc (t :: rest) f
            (by intro r2 he; injection he with hh _; exact hrp hh)
            (List.cons_ne_nil _ _)] at heq
          cases hf : readFormF f (t :: rest) with
          | error er => rw [hf] at heq; simp at heq
          | ok p =>
            obtain ⟨x, r1⟩ := p
            rw [hf] at heq
            have heq2 : readVectorF f (acc ++ [x]) r1 = Except.ok (e, r) := heq
            obtain ⟨hwx, hr1⟩ := ihE (t :: rest) x r1 hts hf
            exact ihV (acc ++ [x]) r1 e r
              (by simp [wfList_append, hacc, wfList, hwx]) hr1 heq2
    · intro acc ts e r hacc hts heq
      cases ts with
      | nil => simp [readMapF] at heq
      | cons t rest =>
        have hrest : rest.all twf = true := by
          rw [List.all_cons, Bool.and_eq_true] at hts
          exact hts.2
        by_cases hrp : t = Tok.rightBrace
        · subst hrp
          have heq2 : Except.ok (MalType.Map acc, rest) = Except.ok (e, r) := heq
          simp only [Except.ok.injEq, Prod.mk.injEq] at heq2
          obtain ⟨rfl, rfl⟩ := heq2
          exact ⟨by simpa [wf] using hacc, hrest⟩
        · rw [readMapF.eq_4 acc (t :: rest) f
            (by intro r2 he; injection he with hh _; exact hrp hh)
            (List.cons_ne_nil _ _)] at heq
          cases hf : readFormF f (t :: rest) with
          | error er => rw [hf] at heq; simp at heq
          | ok p =>
            obtain ⟨k, r1⟩ := p
            rw [hf] at heq
            obtain ⟨hwk, hr1⟩ := ihE (t :: rest) k r1 hts hf
            cases r1 with
            | nil => simp at heq
            | cons u us =>
              have heq2 : (match readFormF f (u :: us) with
                  | Except.error er => Except.error er
                  | Except.ok (v, r2) => readMapF f (acc ++ [(k, v)]) r2)
                  = Except.ok (e, r) := heq
              cases hf2 : readFormF f (u :: us) with
              | error er => rw [hf2] at heq2; simp at heq2
              | ok q =>
                obtain ⟨v, r2⟩ := q
                rw [hf2] at heq2
                have heq3 : readMapF f (acc ++ [(k, v)]) r2 = Except.ok (e, r) := heq2
                obtain ⟨hwv, hr2⟩ := ihE (u :: us) v r2 hr1 hf2
                exact ihP (acc ++ [(k, v)]) r2 e r
                  (by simp [wfPairs_append, hacc, wfPairs, hwv, hwk]) hr2 heq3

end Mal

namespace Mal

theorem tokenize_print_nil (e : MalType) (hwf : wf e = true) :
    tokenize (prStr true e) = .ok (emit e) := by
  have h := (tokenize_print (msize e)).1 e le_rfl hwf [] rfl
  rw [List.append_nil] at h
  rw [show tokenize [] = Except.ok [] from rfl] at h
  simpa [Except.map] using h

theorem read_str_wf (cs : List Char) (e : MalType) (h : read_str cs = .ok e) :
    wf e = true := by
  have h2 : (match tokenize cs with
      | .error er => .error er
      | .ok ts => if ts.isEmpty then .error "Empty input"
          else (readFormF (2 * ts.length + 2) ts).map Prod.fst) = Except.ok e := h
  cases ht : tokenize cs with
  | error er => rw [ht] at h2; simp at h2
  | ok ts =>
    rw [ht] at h2
    have h3 : (if ts.isEmpty then (Except.error "Empty input" : Except String MalType)
        else (readFormF (2 * ts.length + 2) ts).map Prod.fst) = Except.ok e := h2
    by_cases hemp : ts.isEmpty
    · rw [if_pos hemp] at h3; simp at h3
    · rw [if_neg hemp] at h3
      obtain ⟨p, hp, hpe⟩ := (exceptMap_ok _ _ _).mp h3
      obtain ⟨e1, r⟩ := p
      obtain ⟨hw, _⟩ := (readF_wf (2 * ts.length + 2)).1 ts e1 r (tokenize_twf cs ts ht) hp
      rw [← hpe]
      exact hw

theorem read_print_read (cs : List Char) (e : MalType) (h : read_str cs = .ok e) :
    read_str (prStr true e) = .ok e := by
  have hwf := read_str_wf cs e h
  have htok : tokenize (prStr true e) = .ok (emit e) := tokenize_print_nil e hwf
  have hne : (emit e).isEmpty = false := by
    obtain ⟨t, ts, hts, _⟩ := emit_head e hwf
    simp [hts]
  have hread : readFormF (2 * (emit e).length + 2) (emit e ++ []) = .ok (e, []) :=
    (readForm_emit (msize e)).1 e le_rfl hwf [] _ (by omega)
  rw [List.append_nil] at hread
  have hform : read_str (prStr true e)
      = (readFormF (2 * (emit e).length + 2) (emit e)).map Prod.fst := by
    show (match tokenize (prStr true e) with
      | Except.error er => (Except.error er : Except String MalType)
      | Except.ok ts => if ts.isEmpty then Except.error "Empty input"
          else (readFormF (2 * ts.length + 2) ts).map Prod.fst)
      = (readFormF (2 * (emit e).length + 2) (emit e)).map Prod.fst
    rw [htok]
    simp [hne]
  rw [hform, hread]
  rfl

end Mal

namespace Mal

theorem tok_overflow (ds : List Char) (hne : ds ≠ []) (hall : ds.all isDigitCh = true)
    (hov : inI64 (charsToNat ds : Int) = false) (r : List Char) (hb : boundaryB r = true) :
    tokenize (ds ++ r) = tokenize r := by
  obtain ⟨hbd1, hbd2, _, _, _, _, _⟩ := boundary_head_facts r hb
  obtain ⟨d, ds2, rfl⟩ : ∃ d ds2, ds = d :: ds2 := by
    cases ds with
    | nil => exact absurd rfl hne
    | cons d ds2 => exact ⟨d, ds2, rfl⟩
  have hd : isDigitCh d = true := by
    rw [List.all_cons, Bool.and_eq_true] at hall
    exact hall.1
  have h1 : (d :: (ds2 ++ r)).takeWhile isDigitCh = d :: ds2 := by
    rw [← List.cons_append, takeWhile_append_all _ _ hall, hbd1, List.append_nil]
  have h2 : (d :: (ds2 ++ r)).dropWhile isDigitCh = r := by
    rw [← List.cons_append, dropWhile_append_all _ _ hall, hbd2]
  show tokenizeF ((d :: (ds2 ++ r)).length + 1) (d :: (ds2 ++ r)) = tokenize r
  rw [tokenizeF_digit ((d :: (ds2 ++ r)).length) d (ds2 ++ r) hd]
  rw [h1, h2, hov]
  rw [if_neg (by simp)]
  apply tokenizeF_sat
  · simp
    omega
  · omega

theorem read_str_overflow (ds : List Char) (hne : ds ≠ []) (hall : ds.all isDigitCh = true)
    (hov : inI64 (charsToNat ds : Int) = false) :
    read_str ds = .error "Empty input" := by
  have hds : tokenize ds = Except.ok [] := by
    have h := tok_overflow ds hne hall hov [] rfl
    rw [List.append_nil] at h
    rw [h]
    rfl
  show (match tokenize ds with
    | Except.error er => (Except.error er : Except String MalType)
    | Except.ok ts => if ts.isEmpty then Except.error "Empty input"
        else (readFormF (2 * ts.length + 2) ts).map Prod.fst) = Except.error "Empty input"
  rw [hds]
  rfl

end Mal
namespace Mal

theorem getNumber_of_not_number : ∀ a : MalType, (∀ n, ¬ a = .Number n) →
    getNumber a = .error "Expected number" := by
  intro a h
  cases a
  case Number n => exact absurd rfl (h n)
  all_goals rfl

theorem arith_arity (op : Int → Int → Int) (name : String) (args : List MalType)
    (store : Store) (h : ¬ args.length = 2) :
    arith op name args store = .error (name ++ " requires exactly 2 arguments") := by
  simp [arith, h]

theorem divBuiltin_arity (args : List MalType) (store : Store) (h : ¬ args.length = 2) :
    divBuiltin args store = .error "/ requires exactly 2 arguments" := by
  simp [divBuiltin, h]

theorem test_c4_part2 : ∀ (op : String) (args : List MalType) (f envId : Nat) (store : Store),
    (op = "+" ∨ op = "-" ∨ op = "*" ∨ op = "/") → ¬ args.length = 2 →
    ∃ msg, applyFunction (f + 1) (.Symbol op) args envId store = .error msg := by
  intro op args f envId store hop hlen
  rcases hop with h | h | h | h <;> subst h
  · exact ⟨_, arith_arity _ _ _ _ hlen⟩
  · exact ⟨_, arith_arity _ _ _ _ hlen⟩
  · exact ⟨_, arith_arity _ _ _ _ hlen⟩
  · exact ⟨_, divBuiltin_arity _ _ hlen⟩

theorem arith_non_number (op : Int → Int → Int) (name : String) (a b : MalType)
    (store : Store) (h : (∀ n, ¬ a = MalType.Number n) ∨ (∀ n, ¬ b = MalType.Number n)) :
    arith op name [a, b] store = .error "Expected number" := by
  rcases h with ha | hb
  · simp [arith, getNumber_of_not_number a ha]
  · cases hga : getNumber a with
    | error e =>
      cases a <;> simp_all [getNumber, arith]
    | ok v => simp [arith, hga, getNumber_of_not_number b hb]

theorem test_c4_part4 : ∀ (a b : Int) (f envId : Nat) (store : Store),
    applyFunction (f + 1) (.Symbol "/") [.Number a, .Number b] envId store
      = .error "division by zero" ↔ b = 0 := by
  intro a b f envId store
  show divBuiltin [.Number a, .Number b] store = .error "division by zero" ↔ b = 0
  by_cases hb : b = 0
  · simp [divBuiltin, getNumber, hb]
  · simp [divBuiltin, getNumber, hb]

theorem malEq_function_left : ∀ (ps : List String) (b : MalType) (id : Nat) (m : Bool)
    (v : MalType), malEq (.Function ps b id m) v = false := by
  intro ps b id m v; cases v <;> rfl

theorem malEq_function_right : ∀ (v : MalType) (ps : List String) (b : MalType) (id : Nat)
    (m : Bool), malEq v (.Function ps b id m) = false := by
  intro v ps b id m; cases v <;> rfl

theorem malEqList_iff : ∀ xs ys, malEqList xs ys = true ↔
    List.Forall₂ (fun a b => malEq a b = true) xs ys := by
  intro xs
  induction xs with
  | nil => intro ys; cases ys <;> simp [malEqList]
  | cons x xs ih =>
    intro ys
    cases ys with
    | nil => simp [malEqList]
    | cons y ys => simp [malEqList, ih, List.forall₂_cons]

theorem malEqPairs_iff : ∀ ps qs, malEqPairs ps qs = true ↔
    List.Forall₂ (fun a b => malEq a.1 b.1 = true ∧ malEq a.2 b.2 = true) ps qs := by
  intro ps
  induction ps with
  | nil => intro qs; cases qs <;> simp [malEqPairs]
  | cons p ps ih =>
    intro qs
    obtain ⟨k1, v1⟩ := p
    cases qs with
    | nil => simp [malEqPairs]
    | cons q qs =>
      obtain ⟨k2, v2⟩ := q
      simp [malEqPairs, ih, List.forall₂_cons, and_assoc]

theorem test_eq_builtin : ∀ (a b : MalType) (f envId : Nat) (store : Store),
    applyFunction (f + 1) (.Symbol "=") [a, b] envId store = .ok (.Bool (malEq a b), store) := by
  intro a b f envId store; rfl

end Mal

namespace Mal

theorem getElem?_append_len (l : List α) (a : α) : (l ++ [a])[l.length]? = some a := by
  rw [List.getElem?_append_right (Nat.le_refl _)]
  simp

theorem set_append_len (l : List α) (a b : α) : (l ++ [a]).set l.length b = l ++ [b] := by
  induction l with
  | nil => rfl
  | cons x xs ih => simp [List.set, ih]

theorem envSet_fresh (store : Store) (r : EnvRec) (k : String) (v : MalType) :
    envSet (store ++ [r]) store.length k v
      = store ++ [⟨(k, v) :: r.data.filter (fun p => ¬ p.1 = k), r.outer⟩] := by
  simp [envSet, getElem?_append_len, set_append_len]

theorem envGet_fresh_hit (store : Store) (r : EnvRec) (k : String) (v : MalType)
    (h : r.data.lookup k = some v) :
    envGet (store ++ [r]) store.length k = some v := by
  unfold envGet
  rw [show (store ++ [r]).length = store.length + 1 by simp]
  simp [envGetF, getElem?_append_len, h]

theorem eval_letstar (f : Nat) (bindsExpr body : MalType) (envId : Nat) (store : Store) :
    eval (f + 1) (.List [.Symbol "let*", bindsExpr, body]) envId store
      = evalLet f [bindsExpr, body] envId store := by
  simp only [eval]
  simp +decide

theorem evalLet_cons (f : Nat) (binds : List MalType) (body : MalType) (envId : Nat)
    (store : Store) (he : binds.length % 2 = 0) :
    evalLet (f + 1) [.List binds, body] envId store
      = match letBind f binds store.length (store ++ [⟨[], some envId⟩]) with
        | .error e => .error e
        | .ok st2 => eval f body store.length st2 := by
  simp only [evalLet, envNew, he]
  simp

theorem letBind_cons (f : Nat) (k : String) (vexpr : MalType) (rest : List MalType)
    (id : Nat) (store : Store) :
    letBind (f + 1) (.Symbol k :: vexpr :: rest) id store
      = match eval f vexpr id store with
        | .error e => .error e
        | .ok (v, st1) => letBind f rest id (envSet st1 id k v) := by
  simp only [letBind]

theorem letBind_nil (f id : Nat) (store : Store) : letBind (f + 1) [] id store = .ok store := by
  simp only [letBind]

theorem eval_number (f : Nat) (n : Int) (envId : Nat) (store : Store) :
    eval (f + 2) (.Number n) envId store = .ok (.Number n, store) := by
  show eval (f + 1 + 1) (.Number n) envId store = .ok (.Number n, store)
  simp only [eval, evalAst]

theorem eval_symbol (f : Nat) (s : String) (envId : Nat) (store : Store) :
    eval (f + 2) (.Symbol s) envId store
      = match envGet store envId s with
        | some v => .ok (v, store)
        | none => .error "Symbol not found" := by
  show eval (f + 1 + 1) (.Symbol s) envId store = _
  simp only [eval, evalAst]


theorem test_c6_general :
    ∀ (x y : String) (n : Int) (envId : Nat) (store : Store) (f : Nat), ¬ x = y →
    eval (f + 6) (.List [.Symbol "let*",
        .List [.Symbol x, .Number n, .Symbol y, .Symbol x], .Symbol y]) envId store
      = .ok (.Number n, store ++ [⟨[(y, .Number n), (x, .Number n)], some envId⟩]) := by
  intro x y n envId store f hxy
  have hfilter : ([(x, MalType.Number n)]).filter (fun p => ¬ p.1 = y) = [(x, .Number n)] := by
    simp [List.filter, decide_eq_false hxy]
  rw [show f + 6 = (f + 5) + 1 from rfl, eval_letstar,
      show f + 5 = (f + 4) + 1 from rfl, evalLet_cons _ _ _ _ _ (by simp),
      show f + 4 = (f + 3) + 1 from rfl, letBind_cons,
      show f + 3 = (f + 1) + 2 from rfl, eval_number]
  simp only []
  rw [envSet_fresh]
  simp only [List.filter_nil]
  rw [show f + 1 + 2 = (f + 2) + 1 from rfl, letBind_cons,
      show f + 2 = f + 2 from rfl, eval_symbol]
  rw [envGet_fresh_hit _ _ _ (MalType.Number n) (by simp [List.lookup])]
  simp only []
  rw [letBind_nil]
  simp only []
  rw [envSet_fresh]
  simp only [hfilter]
  rw [show f + 2 + 1 + 1 = (f + 2) + 2 from rfl, eval_symbol]
  rw [envGet_fresh_hit _ _ _ (MalType.Number n) (by simp [List.lookup])]

end Mal

namespace Mal

theorem readStringChars_error_msg : ∀ (cs : List Char) (e : String),
    readStringChars cs = .error e → e = "end of input" := by
  intro cs
  induction cs using readStringChars.induct with
  | case1 =>
    intro e h
    simp [readStringChars] at h
    exact h.symm
  | case2 rest =>
    intro e h
    simp [readStringChars] at h
  | case3 =>
    intro e h
    rw [readStringChars.eq_3] at h
    simp at h
    exact h.symm
  | case4 c rest2 ih =>
    intro e h
    rw [readStringChars.eq_4] at h
    cases hr : readStringChars rest2 with
    | error e2 =>
      rw [hr] at h
      simp [Except.map] at h
      rw [← h]
      exact ih e2 hr
    | ok p =>
      rw [hr] at h
      simp [Except.map] at h
  | case5 c rest h1 h2 h3 ih =>
    intro e h
    rw [readStringChars.eq_5 c rest h1 h2 h3] at h
    cases hr : readStringChars rest with
    | error e2 =>
      rw [hr] at h
      simp [Except.map] at h
      rw [← h]
      exact ih e2 hr
    | ok p =>
      rw [hr] at h
      simp [Except.map] at h

theorem readForm_meta (f : Nat) (ts r1 r2 : List Tok) (m x : MalType)
    (h1 : readFormF f ts = .ok (m, r1)) (h2 : readFormF f r1 = .ok (x, r2)) :
    readFormF (f + 1) (Tok.metaTok :: ts) = .ok (.List [.Symbol "with-meta", x, m], r2) := by
  show (match readFormF f ts with
    | Except.error e => (Except.error e : Except String (MalType × List Tok))
    | Except.ok (m, r1) =>
      match readFormF f r1 with
      | Except.error e => Except.error e
      | Except.ok (x, r2) => Except.ok (.List [.Symbol "with-meta", x, m], r2)) = _
  rw [h1]
  show (match readFormF f r1 with
    | Except.error e => (Except.error e : Except String (MalType × List Tok))
    | Except.ok (x, r2) => Except.ok (.List [.Symbol "with-meta", x, m], r2)) = _
  rw [h2]

theorem read_str_first_form (cs : List Char) (ts : List Tok) (e : MalType) (r : List Tok)
    (h1 : tokenize cs = .ok ts) (h2 : ts.isEmpty = false)
    (h3 : readFormF (2 * ts.length + 2) ts = .ok (e, r)) :
    read_str cs = .ok e := by
  show (match tokenize cs with
    | Except.error er => (Except.error er : Except String MalType)
    | Except.ok ts => if ts.isEmpty then Except.error "Empty input"
        else (readFormF (2 * ts.length + 2) ts).map Prod.fst) = Except.ok e
  rw [h1]
  show (if ts.isEmpty then (Except.error "Empty input" : Except String MalType)
      else (readFormF (2 * ts.length + 2) ts).map Prod.fst) = Except.ok e
  rw [h2]
  show (readFormF (2 * ts.length + 2) ts).map Prod.fst = Except.ok e
  rw [h3]
  rfl

theorem divBuiltin_non_number (a b : MalType) (store : Store)
    (h : (∀ n, ¬ a = MalType.Number n) ∨ (∀ n, ¬ b = MalType.Number n)) :
    divBuiltin [a, b] store = .error "Expected number" := by
  rcases h with ha | hb
  · simp [divBuiltin, getNumber_of_not_number a ha]
  · cases hga : getNumber a with
    | error e =>
      cases a <;> simp_all [getNumber, divBuiltin]
    | ok v => simp [divBuiltin, hga, getNumber_of_not_number b hb]

theorem test_c4_nonnum : ∀ (op : String) (a b : MalType) (f envId : Nat) (store : Store),
    (op = "+" ∨ op = "-" ∨ op = "*" ∨ op = "/") →
    ((∀ n, ¬ a = MalType.Number n) ∨ (∀ n, ¬ b = MalType.Number n)) →
    applyFunction (f + 1) (.Symbol op) [a, b] envId store = .error "Expected number" := by
  intro op a b f envId store hop h
  rcases hop with h1 | h1 | h1 | h1 <;> subst h1
  · exact arith_non_number (fun a b => a + b) "+" a b store h
  · exact arith_non_number (fun a b => a - b) "-" a b store h
  · exact arith_non_number (fun a b => a * b) "*" a b store h
  · exact divBuiltin_non_number a b store h

theorem tok_overflow_neg (ds : List Char) (hne : ds ≠ []) (hall : ds.all isDigitCh = true)
    (hov : inI64 (-(charsToNat ds : Int)) = false) (r : List Char)
    (hb : boundaryB r = true) :
    tokenize (('-' :: ds) ++ r) = tokenize r := by
  obtain ⟨hbd1, hbd2, _, _, _, _, _⟩ := boundary_head_facts r hb
  obtain ⟨d, ds2, rfl⟩ : ∃ d ds2, ds = d :: ds2 := by
    cases ds with
    | nil => exact absurd rfl hne
    | cons d ds2 => exact ⟨d, ds2, rfl⟩
  have hd : isDigitCh d = true := by
    rw [List.all_cons, Bool.and_eq_true] at hall
    exact hall.1
  have hdn : digitNext (d :: (ds2 ++ r)) = true := by simp [digitNext, hd]
  have h1 : (d :: (ds2 ++ r)).takeWhile isDigitCh = d :: ds2 := by
    rw [← List.cons_append, takeWhile_append_all _ _ hall, hbd1, List.append_nil]
  have h2 : (d :: (ds2 ++ r)).dropWhile isDigitCh = r := by
    rw [← List.cons_append, dropWhile_append_all _ _ hall, hbd2]
  show tokenizeF ((('-' :: (d :: ds2)) ++ r).length + 1) ('-' :: (d :: (ds2 ++ r)))
      = tokenize r
  rw [tokenizeF_minus ((('-' :: (d :: ds2)) ++ r).length) (d :: (ds2 ++ r)) hdn]
  rw [h1, h2, hov]
  rw [if_neg (by simp)]
  apply tokenizeF_sat
  · simp
    omega
  · omega

theorem read_str_overflow_neg (ds : List Char) (hne : ds ≠ [])
    (hall : ds.all isDigitCh = true) (hov : inI64 (-(charsToNat ds : Int)) = false) :
    read_str ('-' :: ds) = .error "Empty input" := by
  have hds : tokenize ('-' :: ds) = Except.ok [] := by
    have h := tok_overflow_neg ds hne hall hov [] rfl
    rw [List.append_nil] at h
    rw [h]
    rfl
  show (match tokenize ('-' :: ds) with
    | Except.error er => (Except.error er : Except String MalType)
    | Except.ok ts => if ts.isEmpty then Except.error "Empty input"
        else (readFormF (2 * ts.length + 2) ts).map Prod.fst) = Except.error "Empty input"
  rw [hds]
  rfl

end Mal

namespace Mal

/-- C1: the claim that parse maps the literals nil, true, false directly to
the atomic values is wrong for this implementation: read_atom returns a
Symbol for every non-number token, so parsing yields Symbol "nil" etc.; the
atomic values only appear after evaluation, because the default environment
binds the names "nil", "true", "false" to Nil, Bool true, Bool false. -/
theorem c1_literals_are_symbols_resolved_by_env :
    read_str "nil".data = .ok (.Symbol "nil") ∧
    read_str "true".data = .ok (.Symbol "true") ∧
    read_str "false".data = .ok (.Symbol "false") ∧
    runStr "nil" = .ok .Nil ∧
    runStr "true" = .ok (.Bool true) ∧
    runStr "false" = .ok (.Bool false) :=
  ⟨rfl, rfl, rfl, rfl, rfl, rfl⟩

/-- C1 counterexample: parsing the literal nil does not give the value Nil. -/
theorem c1_counterexample : ¬ read_str "nil".data = .ok MalType.Nil := by
  intro h
  rw [show read_str "nil".data = Except.ok (MalType.Symbol "nil") from rfl] at h
  exact MalType.noConfusion (Except.ok.inj h)

/-- C2: any value the reader can return reparses from its readable printed
text to the same value: read_str cs = ok e implies
read_str (prStr true e) = ok e. -/
theorem c2_print_parse_roundtrip (cs : List Char) (e : MalType)
    (h : read_str cs = .ok e) : read_str (prStr true e) = .ok e :=
  read_print_read cs e h

theorem c2_witness :
    read_str (prStr true (MalType.List [MalType.Number 1, MalType.Symbol "a"]))
      = .ok (MalType.List [MalType.Number 1, MalType.Symbol "a"]) :=
  c2_print_parse_roundtrip "(1 a)".data (MalType.List [MalType.Number 1, MalType.Symbol "a"]) rfl

/-- C3: an unterminated string does fail, but every error read_string can
produce carries the message "end of input" — the very same condition an
unclosed parenthesis produces — so the failure is not a distinct
"unterminated string" condition distinguishable by the caller. -/
theorem c3_unterminated_not_distinct (cs : List Char) (e : String)
    (h : readStringChars cs = .error e) :
    e = "end of input" ∧ read_str ('(' :: ['a']) = .error "end of input" :=
  ⟨readStringChars_error_msg cs e h, rfl⟩

theorem c3_witness :
    readStringChars ('a' :: ['b']) = .error "end of input" ∧
    ("end of input" = "end of input" ∧ read_str ('(' :: ['a']) = .error "end of input") :=
  ⟨rfl, c3_unterminated_not_distinct ('a' :: ['b']) "end of input" rfl⟩

/-- C3 counterexample: an unterminated string and an unclosed list fail
with the identical error value, so the two conditions are not distinct. -/
theorem c3_counterexample :
    read_str ('\x22' :: ['a']) = .error "end of input" ∧
    read_str ('(' :: ['a']) = .error "end of input" :=
  ⟨rfl, rfl⟩

/-- C4: each of the four arithmetic builtins fails on wrong arity and on
any non-Number operand (+, -, * via arith; / via divBuiltin); division
fails with "division by zero" exactly when the divisor is 0; and the
concrete examples against the default environment evaluate as the claim
states. -/
theorem c4_arithmetic_builtins :
    (∀ (op : String) (args : List MalType) (f envId : Nat) (store : Store),
      (op = "+" ∨ op = "-" ∨ op = "*" ∨ op = "/") → ¬ args.length = 2 →
      ∃ msg, applyFunction (f + 1) (.Symbol op) args envId store = .error msg) ∧
    (∀ (op : Int → Int → Int) (name : String) (a b : MalType) (store : Store),
      ((∀ n, ¬ a = MalType.Number n) ∨ (∀ n, ¬ b = MalType.Number n)) →
      arith op name [a, b] store = .error "Expected number") ∧
    (∀ (op : String) (a b : MalType) (f envId : Nat) (store : Store),
      (op = "+" ∨ op = "-" ∨ op = "*" ∨ op = "/") →
      ((∀ n, ¬ a = MalType.Number n) ∨ (∀ n, ¬ b = MalType.Number n)) →
      applyFunction (f + 1) (.Symbol op) [a, b] envId store = .error "Expected number") ∧
    (∀ (a b : Int) (f envId : Nat) (store : Store),
      applyFunction (f + 1) (.Symbol "/") [.Number a, .Number b] envId store
        = .error "division by zero" ↔ b = 0) ∧
    runStr "(+ 2 3)" = .ok (.Number 5) ∧
    runStr "(- 10 4)" = .ok (.Number 6) ∧
    runStr "(* 3 3)" = .ok (.Number 9) ∧
    runStr "(/ 7 2)" = .ok (.Number 3) ∧
    runStr "(/ 1 0)" = .error "division by zero" :=
  ⟨test_c4_part2, arith_non_number, test_c4_nonnum, test_c4_part4, rfl, rfl, rfl, rfl, rfl⟩

/-- C5: the claimed variadic behaviour is unreachable: the tokenizer has no
arm for the character & (it falls into the skip-unknown arm and is
dropped), so (a & rest) parses as the two-element list (a rest) and the
claimed example evaluates to (1 2) — parameter a binds 1, parameter rest
binds 2, argument 3 is discarded — not to (1 (2 3)). -/
theorem c5_variadic_marker_dropped :
    read_str "(a & rest)".data = .ok (.List [.Symbol "a", .Symbol "rest"]) ∧
    runStr "((fn* (a & rest) (list a rest)) 1 2 3)"
      = .ok (.List [.Number 1, .Number 2]) ∧
    ¬ runStr "((fn* (a & rest) (list a rest)) 1 2 3)"
        = .ok (.List [.Number 1, .List [.Number 2, .Number 3]]) := by
  refine ⟨rfl, rfl, ?_⟩
  intro h
  rw [show runStr "((fn* (a & rest) (list a rest)) 1 2 3)"
      = Except.ok (MalType.List [MalType.Number 1, MalType.Number 2]) from rfl] at h
  simp at h

/-- C6: let* appends exactly one new scope record whose outer pointer is
the current environment, installs the bindings in order so a later
initializer sees the earlier sibling, evaluates the body in that scope,
and the claimed concrete example yields 6. -/
theorem c6_letstar_scope (x y : String) (n : Int) (envId : Nat) (store : Store) (f : Nat)
    (hxy : ¬ x = y) :
    eval (f + 6) (.List [.Symbol "let*",
        .List [.Symbol x, .Number n, .Symbol y, .Symbol x], .Symbol y]) envId store
      = .ok (.Number n, store ++ [⟨[(y, .Number n), (x, .Number n)], some envId⟩]) ∧
    runStr "(let* (x 2 y (+ x 1)) (* x y))" = .ok (.Number 6) :=
  ⟨test_c6_general x y n envId store f hxy, rfl⟩

theorem c6_witness :
    eval 6 (.List [.Symbol "let*",
        .List [.Symbol "a", .Number 5, .Symbol "b", .Symbol "a"], .Symbol "b"]) 0 defaultStore
      = .ok (.Number 5, defaultStore ++ [⟨[("b", .Number 5), ("a", .Number 5)], some 0⟩]) ∧
    runStr "(let* (x 2 y (+ x 1)) (* x y))" = .ok (.Number 6) :=
  c6_letstar_scope "a" "b" 5 0 defaultStore 0 (by decide)

/-- C7: cross-kind List/Vector equality holds, and Functions are never
equal to anything; but Map equality is element-wise in insertion order
(Forall2 over the pair lists), not order-insensitive as claimed. -/
theorem c7_equality_semantics :
    (∀ xs ys, malEq (.List xs) (.Vector ys) = malEqList xs ys ∧
              malEq (.Vector xs) (.List ys) = malEqList xs ys) ∧
    (∀ xs ys, malEqList xs ys = true ↔
      List.Forall₂ (fun a b => malEq a b = true) xs ys) ∧
    (∀ ps qs, malEqPairs ps qs = true ↔
      List.Forall₂ (fun a b => malEq a.1 b.1 = true ∧ malEq a.2 b.2 = true) ps qs) ∧
    (∀ (ps : List String) (b : MalType) (id : Nat) (m : Bool) (v : MalType),
      malEq (.Function ps b id m) v = false ∧ malEq v (.Function ps b id m) = false) :=
  ⟨fun _ _ => ⟨rfl, rfl⟩, malEqList_iff, malEqPairs_iff,
   fun ps b id m v => ⟨malEq_function_left ps b id m v, malEq_function_right v ps b id m⟩⟩

/-- C7 counterexample: two Maps holding the same pairs in different order
are a permutation of each other yet compare unequal, and a Function does
not equal a structurally identical Function. -/
theorem c7_counterexample :
    List.Perm [((MalType.Number 1 : MalType), (MalType.Number 2 : MalType)),
               (MalType.Number 3, MalType.Number 4)]
              [(MalType.Number 3, MalType.Number 4), (MalType.Number 1, MalType.Number 2)] ∧
    malEq (.Map [(.Number 1, .Number 2), (.Number 3, .Number 4)])
          (.Map [(.Number 3, .Number 4), (.Number 1, .Number 2)]) = false ∧
    malEq (.Function [] .Nil 0 false) (.Function [] .Nil 0 false) = false :=
  ⟨List.Perm.swap _ _ _, rfl, rfl⟩

theorem c7_witness :
    malEq (MalType.List [MalType.Number 1]) (MalType.Vector [MalType.Number 1]) = true :=
  by rw [(c7_equality_semantics.1 [MalType.Number 1] [MalType.Number 1]).1]; rfl

/-- C8: read_form on a meta token reads the meta form first from the token
stream, then the target form from what remains, and returns the list
(with-meta target meta) with the target before the meta. -/
theorem c8_with_meta_order (f : Nat) (ts r1 r2 : List Tok) (m x : MalType)
    (h1 : readFormF f ts = .ok (m, r1)) (h2 : readFormF f r1 = .ok (x, r2)) :
    readFormF (f + 1) (Tok.metaTok :: ts) = .ok (.List [.Symbol "with-meta", x, m], r2) ∧
    read_str "^a b".data = .ok (.List [.Symbol "with-meta", .Symbol "b", .Symbol "a"]) :=
  ⟨readForm_meta f ts r1 r2 m x h1 h2, rfl⟩

theorem c8_witness :
    readFormF 2 (Tok.metaTok :: [Tok.sym "a", Tok.sym "b"])
      = .ok (.List [.Symbol "with-meta", .Symbol "b", .Symbol "a"], []) ∧
    read_str "^a b".data = .ok (.List [.Symbol "with-meta", .Symbol "b", .Symbol "a"]) :=
  c8_with_meta_order 1 [Tok.sym "a", Tok.sym "b"] [Tok.sym "b"] []
    (.Symbol "a") (.Symbol "b") rfl rfl

/-- C9: when the token stream holds a complete first form followed by
further tokens, read_str returns just the first form and silently drops
the rest, as in the claimed examples. -/
theorem c9_extra_forms_dropped (cs : List Char) (ts : List Tok) (e : MalType) (r : List Tok)
    (h1 : tokenize cs = .ok ts) (h2 : ts.isEmpty = false)
    (h3 : readFormF (2 * ts.length + 2) ts = .ok (e, r)) :
    read_str cs = .ok e ∧
    read_str "1 2".data = .ok (.Number 1) ∧
    read_str "(a) (b)".data = .ok (.List [.Symbol "a"]) :=
  ⟨read_str_first_form cs ts e r h1 h2 h3, rfl, rfl⟩

theorem c9_witness :
    read_str "1 2".data = .ok (.Number 1) ∧
    read_str "1 2".data = .ok (.Number 1) ∧
    read_str "(a) (b)".data = .ok (.List [.Symbol "a"]) :=
  c9_extra_forms_dropped "1 2".data [Tok.num 1, Tok.num 2] (.Number 1) [Tok.num 2]
    rfl rfl rfl

/-- C10: a numeric literal (a digit run, optionally preceded by a minus
sign) whose value is outside the i64 range produces no token — its
characters, sign included, are consumed and discarded, never parsed as a
symbol: standing alone it leaves an empty token stream so read_str fails
with "Empty input", and before any boundary suffix the tokenizer behaves
as if the literal were absent, as in the claimed container examples. -/
theorem c10_overflow_literal_dropped (ds : List Char) (hne : ds ≠ [])
    (hall : ds.all isDigitCh = true) :
    (inI64 (charsToNat ds : Int) = false →
      read_str ds = .error "Empty input" ∧
      ∀ r, boundaryB r = true → tokenize (ds ++ r) = tokenize r) ∧
    (inI64 (-(charsToNat ds : Int)) = false →
      read_str ('-' :: ds) = .error "Empty input" ∧
      ∀ r, boundaryB r = true → tokenize (('-' :: ds) ++ r) = tokenize r) ∧
    read_str "(1 9223372036854775808 2)".data = .ok (.List [.Number 1, .Number 2]) ∧
    read_str "(1 -9223372036854775809 2)".data = .ok (.List [.Number 1, .Number 2]) ∧
    read_str "-9223372036854775809".data = .error "Empty input" :=
  ⟨fun hov => ⟨read_str_overflow ds hne hall hov,
      fun r hb => tok_overflow ds hne hall hov r hb⟩,
   fun hov => ⟨read_str_overflow_neg ds hne hall hov,
      fun r hb => tok_overflow_neg ds hne hall hov r hb⟩,
   rfl, rfl, rfl⟩

theorem c10_witness :
    (inI64 (charsToNat "9223372036854775809".data : Int) = false →
      read_str "9223372036854775809".data = .error "Empty input" ∧
      ∀ r, boundaryB r = true →
        tokenize ("9223372036854775809".data ++ r) = tokenize r) ∧
    (inI64 (-(charsToNat "9223372036854775809".data : Int)) = false →
      read_str ('-' :: "9223372036854775809".data) = .error "Empty input" ∧
      ∀ r, boundaryB r = true →
        tokenize (('-' :: "9223372036854775809".data) ++ r) = tokenize r) ∧
    read_str "(1 9223372036854775808 2)".data = .ok (.List [.Number 1, .Number 2]) ∧
    read_str "(1 -9223372036854775809 2)".data = .ok (.List [.Number 1, .Number 2]) ∧
    read_str "-9223372036854775809".data = .error "Empty input" :=
  c10_overflow_literal_dropped "9223372036854775809".data (by decide) rfl

end Mal
